import Mathlib

/-!
# ManagerUbuntu: the sampling core and the two handlers of `main.go`

A shallow embedding of `getProcesses`, `getSystemStats`, `statsHandler` and `killHandler`, with
the library code they run: `sort.Slice` of the Go standard library (the pattern-defeating
quicksort of Go 1.19 and later, function by function) and `strconv.Atoi` (for a 64-bit `int`).

Modelling choices.
* The results of the gopsutil queries are inputs: a query that returns a non-nil error is an
  `Except.error` (or `none` for the per-process reads, where gopsutil returns the zero value
  together with the error).
* `float64` and `float32` values are rationals. NaN and the infinities, which the gopsutil reads
  do not return, are left out. The conversion `float64(x)` of a `uint64` byte count rounds to 53
  significant bits; the division by `1024^3` or `1024^2`, a power of two, is exact.
* `uint64` byte counts are natural numbers; `int` is a 64-bit and `int32` a 32-bit signed
  integer, with the wrap-around of the conversion written out.
* A Go slice is a list, an index expression out of range is a panic (`Except.error`), and the
  loops of the sort are recursions on a bound of their number of iterations.
-/

/-! ## Go `sort.Slice` -/

namespace GoSort

variable {α : Type}

/-- The `Swap` of a `lessSwap`: exchange the elements at positions `i` and `j`. -/
def Swap (data : List α) (i j : Nat) : List α :=
  match data[i]?, data[j]? with
  | some x, some y => (data.set i y).set j x
  | _, _ => data

/-- The `Less` of a `lessSwap`: the caller's comparison applied to the elements at `i` and `j`. -/
def Less (less : α → α → Bool) (data : List α) (i j : Nat) : Bool :=
  match data[i]?, data[j]? with
  | some x, some y => less x y
  | _, _ => false

/-- Inner loop of `insertionSort_func`: `for j := i; j > a && data.Less(j, j-1); j--`. -/
def insertionSort_inner (less : α → α → Bool) (a : Nat) : Nat → List α → List α
  | 0, data => data
  | j + 1, data =>
    if a < j + 1 && Less less data (j + 1) j then
      insertionSort_inner less a j (Swap data (j + 1) j)
    else data

/-- Outer loop of `insertionSort_func`: `for i := a + 1; i < b; i++`; the first argument
bounds the number of iterations left. -/
def insertionSort_outer (less : α → α → Bool) (a b : Nat) : Nat → Nat → List α → List α
  | 0, _, data => data
  | n + 1, i, data =>
    if i < b then insertionSort_outer less a b n (i + 1) (insertionSort_inner less a i data)
    else data

/-- Go `insertionSort_func`: sorts `data[a:b]` using insertion sort. -/
def insertionSort_func (less : α → α → Bool) (data : List α) (a b : Nat) : List α :=
  insertionSort_outer less a b (b - (a + 1)) (a + 1) data

/-- Loop of `siftDown_func`; the first argument bounds the number of iterations left. -/
def siftDown_loop (less : α → α → Bool) (hi first : Nat) : Nat → Nat → List α → List α
  | 0, _, data => data
  | n + 1, root, data =>
    let child := 2 * root + 1
    if child ≥ hi then data
    else
      let child :=
        if child + 1 < hi && Less less data (first + child) (first + child + 1) then child + 1
        else child
      if !Less less data (first + root) (first + child) then data
      else siftDown_loop less hi first n child (Swap data (first + root) (first + child))

/-- Go `siftDown_func`: implements the heap property on `data[lo:hi]`. -/
def siftDown_func (less : α → α → Bool) (data : List α) (lo hi first : Nat) : List α :=
  siftDown_loop less hi first hi lo data

/-- First loop of `heapSort_func`: `for i := (hi - 1) / 2; i >= 0; i--`. -/
def heapSort_build (less : α → α → Bool) (hi first : Nat) : Nat → List α → List α
  | 0, data => siftDown_func less data 0 hi first
  | i + 1, data => heapSort_build less hi first i (siftDown_func less data (i + 1) hi first)

/-- Second loop of `heapSort_func`: `for i := hi - 1; i >= 0; i--`. -/
def heapSort_pop (less : α → α → Bool) (first : Nat) : Nat → List α → List α
  | 0, data => siftDown_func less (Swap data first first) 0 0 first
  | i + 1, data =>
    heapSort_pop less first i
      (siftDown_func less (Swap data first (first + (i + 1))) 0 (i + 1) first)

/-- Go `heapSort_func`. For an empty range both loops leave the data alone. -/
def heapSort_func (less : α → α → Bool) (data : List α) (a b : Nat) : List α :=
  let first := a
  let hi := b - a
  if hi = 0 then data
  else heapSort_pop less first (hi - 1) (heapSort_build less hi first ((hi - 1) / 2) data)

/-- Scan `for i <= j && c(i) { i++ }`; the first argument bounds the number of iterations left;
returns the final `i`. -/
def scanUp (c : Nat → Bool) (j : Nat) : Nat → Nat → Nat
  | 0, i => i
  | n + 1, i => if i ≤ j && c i then scanUp c j n (i + 1) else i

/-- Scan `for i <= j && c(j) { j-- }`, run with `i >= 1` only, so that `j` stays a natural
number; returns the final `j`. -/
def scanDown (c : Nat → Bool) (i : Nat) : Nat → Nat
  | 0 => 0
  | j + 1 => if i ≤ j + 1 && c (j + 1) then scanDown c i j else j + 1

/-- The `for` loop of `partition_func`, whose body scans `i` up while `data.Less(i, a)` and `j`
down while `!data.Less(j, a)`; returns the data and the final `j`. -/
def partition_loop (less : α → α → Bool) (a : Nat) : Nat → Nat → Nat → List α → List α × Nat
  | 0, _, j, data => (data, j)
  | n + 1, i, j, data =>
    let i := scanUp (fun i => Less less data i a) j (j + 1 - i) i
    let j := scanDown (fun j => !Less less data j a) i j
    if i > j then (data, j)
    else partition_loop less a n (i + 1) (j - 1) (Swap data i j)

/-- Go `partition_func`: one quicksort partition; returns the data, `newpivot` and
`alreadyPartitioned`. -/
def partition_func (less : α → α → Bool) (data : List α) (a b pivot : Nat) :
    List α × Nat × Bool :=
  let data := Swap data a pivot
  let i := a + 1
  let j := b - 1
  let i := scanUp (fun i => Less less data i a) j (j + 1 - i) i
  let j := scanDown (fun j => !Less less data j a) i j
  if i > j then (Swap data j a, j, true)
  else
    let data := Swap data i j
    let r := partition_loop less a (j - i) (i + 1) (j - 1) data
    (Swap r.1 r.2 a, r.2, false)

/-- The `for` loop of `partitionEqual_func`, whose body scans `i` up while `!data.Less(a, i)` and
`j` down while `data.Less(a, j)`; returns the data and the final `i`. -/
def partitionEqual_loop (less : α → α → Bool) (a : Nat) : Nat → Nat → Nat → List α → List α × Nat
  | 0, i, _, data => (data, i)
  | n + 1, i, j, data =>
    let i := scanUp (fun i => !Less less data a i) j (j + 1 - i) i
    let j := scanDown (fun j => Less less data a j) i j
    if i > j then (data, i)
    else partitionEqual_loop less a n (i + 1) (j - 1) (Swap data i j)

/-- Go `partitionEqual_func`: partitions `data[a:b]` into elements equal to the pivot followed
by elements greater than the pivot; returns the data and `newpivot`. -/
def partitionEqual_func (less : α → α → Bool) (data : List α) (a b pivot : Nat) : List α × Nat :=
  let data := Swap data a pivot
  partitionEqual_loop less a (b - a) (a + 1) (b - 1) data

/-- Scan `for i < b && !data.Less(i, i-1) { i++ }` of `partialInsertionSort_func`. -/
def partialInsertionSort_scan (less : α → α → Bool) (data : List α) (b : Nat) : Nat → Nat → Nat
  | 0, i => i
  | n + 1, i =>
    if i < b && !Less less data i (i - 1) then partialInsertionSort_scan less data b n (i + 1)
    else i

/-- Loop `for j := i - 1; j >= 1; j--` of `partialInsertionSort_func` (shift the smaller one to
the left). -/
def partialInsertionSort_shiftLeft (less : α → α → Bool) : Nat → List α → List α
  | 0, data => data
  | j + 1, data =>
    if !Less less data (j + 1) j then data
    else partialInsertionSort_shiftLeft less j (Swap data (j + 1) j)

/-- Loop `for j := i + 1; j < b; j++` of `partialInsertionSort_func` (shift the greater one to
the right). -/
def partialInsertionSort_shiftRight (less : α → α → Bool) (b : Nat) : Nat → Nat → List α → List α
  | 0, _, data => data
  | n + 1, j, data =>
    if j < b then
      if !Less less data j (j - 1) then data
      else partialInsertionSort_shiftRight less b n (j + 1) (Swap data j (j - 1))
    else data

/-- Constant `maxSteps` of `partialInsertionSort_func`. -/
def maxSteps : Nat := 5

/-- Constant `shortestShifting` of `partialInsertionSort_func`. -/
def shortestShifting : Nat := 50

/-- Loop `for j := 0; j < maxSteps; j++` of `partialInsertionSort_func`. -/
def partialInsertionSort_loop (less : α → α → Bool) (a b : Nat) :
    Nat → Nat → List α → List α × Bool
  | 0, _, data => (data, false)
  | s + 1, i, data =>
    let i := partialInsertionSort_scan less data b (b - i) i
    if i = b then (data, true)
    else if b - a < shortestShifting then (data, false)
    else
      let data := Swap data i (i - 1)
      let data := if i - a ≥ 2 then partialInsertionSort_shiftLeft less (i - 1) data else data
      let data :=
        if b - i ≥ 2 then partialInsertionSort_shiftRight less b (b - (i + 1)) (i + 1) data
        else data
      partialInsertionSort_loop less a b s i data

/-- Go `partialInsertionSort_func`: partially sorts a slice, returns true if the slice is sorted
at the end. -/
def partialInsertionSort_func (less : α → α → Bool) (data : List α) (a b : Nat) : List α × Bool :=
  partialInsertionSort_loop less a b maxSteps (a + 1) data

/-- Go `bits.Len`: the minimum number of bits required to represent `x`. -/
def bitsLen (x : Nat) : Nat := if x = 0 then 0 else Nat.log2 x + 1

/-- Go `(*xorshift).Next` on a 64-bit state, with the shifts 13, 7, 17 of the 64-bit xorshift;
returns the new state (which is also the value drawn). The values drawn only select the
positions that `breakPatterns_func` swaps. -/
def xorshift_Next (r : Nat) : Nat :=
  let r := r ^^^ ((r <<< 13) % 2 ^ 64)
  let r := r ^^^ (r >>> 7)
  r ^^^ ((r <<< 17) % 2 ^ 64)

/-- Go `nextPowerOfTwo`. -/
def nextPowerOfTwo (length : Nat) : Nat := 1 <<< bitsLen length

/-- Loop `for i := 0; i < 3; i++` of `breakPatterns_func`. -/
def breakPatterns_loop (a length modulus idx : Nat) : Nat → Nat → Nat → List α → List α
  | 0, _, _, data => data
  | n + 1, i, random, data =>
    let random := xorshift_Next random
    let other := random &&& (modulus - 1)
    let other := if other ≥ length then other - length else other
    breakPatterns_loop a length modulus idx n (i + 1) random (Swap data (idx - 1 + i) (a + other))

/-- Go `breakPatterns_func`: scatters some elements around. -/
def breakPatterns_func (data : List α) (a b : Nat) : List α :=
  let length := b - a
  if length ≥ 8 then
    let random := length
    let modulus := nextPowerOfTwo length
    let idx := a + (length / 4) * 2 - 1
    breakPatterns_loop a length modulus idx 3 0 random data
  else data

/-- Go `sortedHint`. -/
inductive sortedHint
  | unknownHint
  | increasingHint
  | decreasingHint
  deriving DecidableEq, Repr

/-- Go `order2_func`: returns `x, y` where `data[x] <= data[y]`, and the swap counter. -/
def order2_func (less : α → α → Bool) (data : List α) (a b swaps : Nat) : Nat × Nat × Nat :=
  if Less less data b a then (b, a, swaps + 1) else (a, b, swaps)

/-- Go `median_func`: the index of the median of `data[a], data[b], data[c]`, and the swap
counter. -/
def median_func (less : α → α → Bool) (data : List α) (a b c swaps : Nat) : Nat × Nat :=
  let r1 := order2_func less data a b swaps
  let r2 := order2_func less data r1.2.1 c r1.2.2
  let r3 := order2_func less data r1.1 r2.1 r2.2.2
  (r3.2.1, r3.2.2)

/-- Go `medianAdjacent_func`. -/
def medianAdjacent_func (less : α → α → Bool) (data : List α) (a swaps : Nat) : Nat × Nat :=
  median_func less data (a - 1) a (a + 1) swaps

/-- Constant `shortestNinther` of `choosePivot_func`. -/
def shortestNinther : Nat := 50

/-- Constant `maxSwaps` of `choosePivot_func`. -/
def maxSwaps : Nat := 4 * 3

/-- Go `choosePivot_func`: chooses a pivot in `data[a:b]`. -/
def choosePivot_func (less : α → α → Bool) (data : List α) (a b : Nat) : Nat × sortedHint :=
  let l := b - a
  let i := a + l / 4 * 1
  let j := a + l / 4 * 2
  let k := a + l / 4 * 3
  let r :=
    if l ≥ 8 then
      if l ≥ shortestNinther then
        let ri := medianAdjacent_func less data i 0
        let rj := medianAdjacent_func less data j ri.2
        let rk := medianAdjacent_func less data k rj.2
        median_func less data ri.1 rj.1 rk.1 rk.2
      else median_func less data i j k 0
    else (j, 0)
  if r.2 = 0 then (r.1, sortedHint.increasingHint)
  else if r.2 = maxSwaps then (r.1, sortedHint.decreasingHint)
  else (r.1, sortedHint.unknownHint)

/-- Loop of `reverseRange_func`: `for i < j { data.Swap(i, j); i++; j-- }`. -/
def reverseRange_loop : Nat → Nat → Nat → List α → List α
  | 0, _, _, data => data
  | n + 1, i, j, data =>
    if i < j then reverseRange_loop n (i + 1) (j - 1) (Swap data i j) else data

/-- Go `reverseRange_func`. -/
def reverseRange_func (data : List α) (a b : Nat) : List α :=
  reverseRange_loop (b - a) a (b - 1) data

/-- Constant `maxInsertion` of `pdqsort_func`. -/
def maxInsertion : Nat := 12

/-- The `for` loop of `pdqsort_func` together with its recursive calls; the first argument bounds
the nesting of iterations and calls (every iteration and every call shrinks `b - a`). -/
def pdqsort_loop (less : α → α → Bool) :
    Nat → List α → Nat → Nat → Nat → Bool → Bool → List α
  | 0, data, _, _, _, _, _ => data
  | fuel + 1, data, a, b, limit, wasBalanced, wasPartitioned =>
    let length := b - a
    if length ≤ maxInsertion then insertionSort_func less data a b
    else if limit = 0 then heapSort_func less data a b
    else
      let data := if !wasBalanced then breakPatterns_func data a b else data
      let limit := if !wasBalanced then limit - 1 else limit
      let ph := choosePivot_func less data a b
      let data := if ph.2 = sortedHint.decreasingHint then reverseRange_func data a b else data
      let pivot := if ph.2 = sortedHint.decreasingHint then (b - 1) - (ph.1 - a) else ph.1
      let hint := if ph.2 = sortedHint.decreasingHint then sortedHint.increasingHint else ph.2
      let tryPartial := wasBalanced && wasPartitioned && decide (hint = sortedHint.increasingHint)
      let pr := if tryPartial then partialInsertionSort_func less data a b else (data, false)
      if pr.2 then pr.1
      else
        let data := pr.1
        if a > 0 && !Less less data (a - 1) pivot then
          let r := partitionEqual_func less data a b pivot
          pdqsort_loop less fuel r.1 r.2 b limit wasBalanced wasPartitioned
        else
          let r := partition_func less data a b pivot
          let mid := r.2.1
          let alreadyPartitioned := r.2.2
          let leftLen := mid - a
          let rightLen := b - mid
          let balanceThreshold := length / 8
          if leftLen < rightLen then
            let data := pdqsort_loop less fuel r.1 a mid limit true true
            pdqsort_loop less fuel data (mid + 1) b limit
              (decide (leftLen ≥ balanceThreshold)) alreadyPartitioned
          else
            let data := pdqsort_loop less fuel r.1 (mid + 1) b limit true true
            pdqsort_loop less fuel data a mid limit
              (decide (rightLen ≥ balanceThreshold)) alreadyPartitioned

/-- Go `pdqsort_func`: sorts `data[a:b]`. -/
def pdqsort_func (less : α → α → Bool) (data : List α) (a b limit : Nat) : List α :=
  pdqsort_loop less (b - a + 1) data a b limit true true

/-- Go `sort.Slice` with the comparison given on elements. -/
def Slice (less : α → α → Bool) (x : List α) : List α :=
  let length := x.length
  let limit := bitsLen length
  pdqsort_func less x 0 length limit

/-- Index transposition performed by `Swap`. -/
def swapIdx (i j k : Nat) : Nat := if k = i then j else if k = j then i else k

/-- The comparison is a strict weak ordering. -/
structure StrictWeakOrder (less : α → α → Bool) : Prop where
  asymm : ∀ x y, less x y = true → less y x = false
  le_trans : ∀ x y z, less y x = false → less z y = false → less z x = false

/-- The range `[a, b)` of `data` is in order: no later element is less than an earlier one. -/
def SortedRange (less : α → α → Bool) (data : List α) (a b : Nat) : Prop :=
  ∀ i j, a ≤ i → i < j → j < b → Less less data j i = false

/-- The element before the range, if any, is not above any element of the range `[a, b)`. -/
def LowerBound (less : α → α → Bool) (data : List α) (a b : Nat) : Prop :=
  ∀ k, 0 < a → a ≤ k → k < b → Less less data k (a - 1) = false

/-- The list `ys` arises from `xs` by rearranging the range `[a, b)` only. -/
structure Shuffled (a b : Nat) (xs ys : List α) : Prop where
  length_eq : ys.length = xs.length
  outside : ∀ k, (k < a ∨ b ≤ k) → ys[k]? = xs[k]?
  inside : ∀ k, a ≤ k → k < b → ∃ k', a ≤ k' ∧ k' < b ∧ ys[k]? = xs[k']?
  perm : ys.Perm xs

/-- Invariant of the inner loop of insertion sort: `[a, i]` is in order once position `j` is
left out, and the element at `j` is not above any later one. -/
def InsInv (less : α → α → Bool) (data : List α) (a i j : Nat) : Prop :=
  (∀ p q, a ≤ p → p < q → q ≤ i → p ≠ j → q ≠ j → Less less data q p = false) ∧
  (∀ q, j < q → q ≤ i → Less less data q j = false)

/-- Invariant of the two-sided partition loops: positions in `(a, i)` satisfy `c`, positions in
`(j, b)` do not. -/
def TwoInv (c : Nat → Bool) (a b i j : Nat) : Prop :=
  a + 1 ≤ i ∧ i ≤ j + 1 ∧ j < b ∧ (∀ k, a < k → k < i → c k = true) ∧
    (∀ k, j < k → k < b → c k = false)

/-- The heap property at node `p` of the heap laid out in `data[first : first + hi]`: no child
of `p` is above `p`. -/
def HeapAt (less : α → α → Bool) (data : List α) (first hi p : Nat) : Prop :=
  ∀ c, (c = 2 * p + 1 ∨ c = 2 * p + 2) → c < hi → Less less data (first + p) (first + c) = false

end GoSort

/-! ## `main.go` -/

namespace Main

/-- Go `error` values (only their presence matters here). -/
abbrev Error := String

/-- A run-time panic of the Go program. -/
inductive Panic
  | indexOutOfRange
  deriving DecidableEq, Repr

/-- Go index expression `xs[i]`, which panics when `i` is out of range. -/
def index {α : Type} (xs : List α) (i : Nat) : Except Panic α :=
  match xs[i]? with
  | some x => .ok x
  | none => .error Panic.indexOutOfRange

/-- Go `ProcessInfo`; the `float64` and `float32` fields are modelled by rationals. -/
structure ProcessInfo where
  PID : Int
  Name : String
  CPUPercent : ℚ
  MemoryPercent : ℚ
  deriving DecidableEq, Repr

/-- Go `SystemStats`; the `float64` fields are modelled by rationals. -/
structure SystemStats where
  CPUUsage : ℚ
  MemoryTotal : ℚ
  MemoryUsed : ℚ
  MemoryUsage : ℚ
  DiskTotal : ℚ
  DiskUsed : ℚ
  DiskUsage : ℚ
  NetSent : ℚ
  NetRecv : ℚ
  Processes : List ProcessInfo
  deriving DecidableEq, Repr

/-- A gopsutil `*process.Process` as `getProcesses` sees it: its `Pid` and the outcome of the
three reads; `none` is a read that returns a non-nil error (gopsutil then returns the zero value
of the result type). -/
structure Process where
  Pid : Int
  Name : Option String
  CPUPercent : Option ℚ
  MemoryPercent : Option ℚ
  deriving DecidableEq, Repr

/-- The fields of gopsutil `mem.VirtualMemoryStat` that are read. -/
structure VirtualMemoryStat where
  Total : Nat
  Used : Nat
  UsedPercent : ℚ
  deriving DecidableEq, Repr

/-- The fields of gopsutil `disk.UsageStat` that are read. -/
structure UsageStat where
  Total : Nat
  Used : Nat
  UsedPercent : ℚ
  deriving DecidableEq, Repr

/-- The fields of gopsutil `net.IOCountersStat` that are read. -/
structure IOCountersStat where
  BytesSent : Nat
  BytesRecv : Nat
  deriving DecidableEq, Repr

/-- The outcome of the five operating-system queries of one sampling pass. -/
structure OS where
  cpuPercent : Except Error (List ℚ)
  virtualMemory : Except Error VirtualMemoryStat
  diskUsage : Except Error UsageStat
  ioCounters : Except Error (List IOCountersStat)
  processes : Except Error (List Process)

/-- The comparison closure passed to `sort.Slice` in `getProcesses`:
`result[i].CPUPercent > result[j].CPUPercent`. -/
def cpuLess (x y : ProcessInfo) : Bool := decide (x.CPUPercent > y.CPUPercent)

/-- The `ProcessInfo` literal appended for one process in the loop of `getProcesses`: the
errors of the three reads are discarded, the values are taken as returned. -/
def newProcessInfo (p : Process) : ProcessInfo :=
  { PID := p.Pid
    Name := p.Name.getD ""
    CPUPercent := p.CPUPercent.getD 0
    MemoryPercent := p.MemoryPercent.getD 0 }

/-- Go `getProcesses`, given the outcome of `process.Processes()`; returns the pair
`([]ProcessInfo, error)`. -/
def getProcesses (procs : Except Error (List Process)) : List ProcessInfo × Option Error :=
  match procs with
  | .error err => ([], some err)
  | .ok procs =>
    let result := procs.foldl (fun result p => result ++ [newProcessInfo p]) []
    (GoSort.Slice cpuLess result, none)

/-- The number of halvings that bring `x` below `2 ^ 53`, that is the number of low bits that
do not fit the 53-bit mantissa of a `float64`; the first argument bounds the recursion. -/
def excessBits : Nat → Nat → Nat
  | 0, _ => 0
  | n + 1, x => if x < 2 ^ 53 then 0 else excessBits n (x / 2) + 1

/-- The integer that Go `float64(x)` denotes for a `uint64` value `x`: `x` itself when it has at
most 53 significant bits, otherwise `x` rounded to 53 significant bits, to nearest and to an even
mantissa on a tie. -/
def roundUint64 (x : Nat) : Nat :=
  if x < 2 ^ 53 then x
  else
    let e := excessBits x x
    let q := x / 2 ^ e
    let r := x % 2 ^ e
    let half := 2 ^ (e - 1)
    if r > half ∨ (r = half ∧ q % 2 = 1) then (q + 1) * 2 ^ e else q * 2 ^ e

/-- Go conversion `float64(x)` of a `uint64` value, as a rational. -/
def float64 (x : Nat) : ℚ := (roundUint64 x : ℚ)

/-- The zero value of `SystemStats` (`var stats SystemStats`). -/
def SystemStats.zero : SystemStats :=
  { CPUUsage := 0, MemoryTotal := 0, MemoryUsed := 0, MemoryUsage := 0, DiskTotal := 0,
    DiskUsed := 0, DiskUsage := 0, NetSent := 0, NetRecv := 0, Processes := [] }

/-- Go `getSystemStats`; returns the pair `(SystemStats, error)`, or a panic. -/
def getSystemStats (os : OS) : Except Panic (SystemStats × Option Error) := do
  let stats := SystemStats.zero
  let stats ←
    match os.cpuPercent with
    | .error _ => pure { stats with CPUUsage := 0 }
    | .ok cpuPercents =>
      if cpuPercents.length = 0 then pure { stats with CPUUsage := 0 }
      else do
        let v ← index cpuPercents 0
        pure { stats with CPUUsage := v }
  let stats :=
    match os.virtualMemory with
    | .ok vmem =>
      { stats with
        MemoryTotal := float64 vmem.Total / (1024 * 1024 * 1024)
        MemoryUsed := float64 vmem.Used / (1024 * 1024 * 1024)
        MemoryUsage := vmem.UsedPercent }
    | .error _ => stats
  let stats :=
    match os.diskUsage with
    | .ok du =>
      { stats with
        DiskTotal := float64 du.Total / (1024 * 1024 * 1024)
        DiskUsed := float64 du.Used / (1024 * 1024 * 1024)
        DiskUsage := du.UsedPercent }
    | .error _ => stats
  let stats ←
    match os.ioCounters with
    | .ok netIO =>
      if netIO.length > 0 then do
        let c ← index netIO 0
        pure { stats with
          NetSent := float64 c.BytesSent / (1024 * 1024)
          NetRecv := float64 c.BytesRecv / (1024 * 1024) }
      else pure stats
    | .error _ => pure stats
  let r := getProcesses os.processes
  let stats :=
    match r.2 with
    | none => { stats with Processes := r.1 }
    | some _ => stats
  pure (stats, none)

/-- What a handler writes to the `http.ResponseWriter`. -/
inductive Response
  | Error (msg : String) (code : Nat)
  | Redirect (url : String) (code : Nat)
  | JSON (stats : SystemStats)
  deriving DecidableEq, Repr

/-- Go `http.StatusSeeOther`. -/
def StatusSeeOther : Nat := 303

/-- Go `http.StatusBadRequest`. -/
def StatusBadRequest : Nat := 400

/-- Go `http.StatusNotFound`. -/
def StatusNotFound : Nat := 404

/-- Go `http.StatusInternalServerError`. -/
def StatusInternalServerError : Nat := 500

/-- Go `statsHandler`. -/
def statsHandler (os : OS) : Except Panic Response := do
  let r ← getSystemStats os
  match r.2 with
  | some _ =>
    pure (Response.Error "Ошибка получения информации о системе" StatusInternalServerError)
  | none => pure (Response.JSON r.1)

/-- Digits of a decimal numeral, most significant first; `none` on a byte that is not a digit. -/
def parseDigits : List Char → Nat → Option Nat
  | [], n => some n
  | ch :: rest, n => if ch.isDigit then parseDigits rest (n * 10 + (ch.toNat - 48)) else none

/-- Go `strconv.Atoi` where `int` has 64 bits: an optional sign followed by one or more decimal
digits, in the range of `int64`. -/
def Atoi (s : String) : Except Error Int :=
  let digits :=
    match s.toList with
    | '-' :: rest => rest
    | '+' :: rest => rest
    | cs => cs
  let neg := s.toList.head? = some '-'
  if digits.isEmpty then .error "invalid syntax"
  else
    match parseDigits digits 0 with
    | none => .error "invalid syntax"
    | some n =>
      let v : Int := if neg then -(n : Int) else (n : Int)
      if -(2 : Int) ^ 63 ≤ v ∧ v ≤ (2 : Int) ^ 63 - 1 then .ok v
      else .error "value out of range"

/-- Go conversion `int32(pid)` of an `int`: the low 32 bits, read as a signed number. -/
def toInt32 (n : Int) : Int := (n + 2 ^ 31) % 2 ^ 32 - 2 ^ 31

/-- The request as `killHandler` reads it: the method and `r.FormValue("pid")`. -/
structure Request where
  Method : String
  pid : String

/-- The process table as `killHandler` uses it: `process.NewProcess(pid)` and `proc.Kill()` for
the process with a given pid; `none` is a nil error. -/
structure ProcessTable where
  NewProcess : Int → Option Error
  Kill : Int → Option Error

/-- A call made on the process table. -/
inductive Call
  | NewProcess (pid : Int)
  | Kill (pid : Int)
  deriving DecidableEq, Repr

/-- Go `http.MethodPost`. -/
def MethodPost : String := "POST"

/-- Go `killHandler`; returns the response and the calls made on the process table, in order. -/
def killHandler (t : ProcessTable) (r : Request) : Response × List Call :=
  if r.Method ≠ MethodPost then (Response.Redirect "/" StatusSeeOther, [])
  else
    let pidStr := r.pid
    match Atoi pidStr with
    | .error _ => (Response.Error "Неверный PID" StatusBadRequest, [])
    | .ok pid =>
      match t.NewProcess (toInt32 pid) with
      | some _ =>
        (Response.Error "Процесс не найден" StatusNotFound, [Call.NewProcess (toInt32 pid)])
      | none =>
        match t.Kill (toInt32 pid) with
        | some err =>
          (Response.Error ("Не удалось завершить процесс: " ++ err) StatusInternalServerError,
            [Call.NewProcess (toInt32 pid), Call.Kill (toInt32 pid)])
        | none =>
          (Response.Redirect "/" StatusSeeOther,
            [Call.NewProcess (toInt32 pid), Call.Kill (toInt32 pid)])

/-- Stability of a reordering with respect to the CPU key: for the CPU percent of every input
row, the rows with that CPU percent appear in the output in the same order as in the input. -/
def StableByCPU (input output : List ProcessInfo) : Prop :=
  ∀ x ∈ input, output.filter (fun y => decide (y.CPUPercent = x.CPUPercent)) =
    input.filter (fun y => decide (y.CPUPercent = x.CPUPercent))

/-- Thirteen processes, pids 1 to 13 in enumeration order, all idle except pid 7. -/
def thirteenProcesses : List Process :=
  (List.range 13).map (fun i =>
    { Pid := (i : Int) + 1, Name := some "worker", CPUPercent := some (if i = 6 then 1 else 0),
      MemoryPercent := some 0 })

/-- The scenario of three processes with CPU percents 2.0, 5.0, 5.0 and pids 10, 20, 5, in
enumeration order. -/
def threeProcesses (n1 n2 n3 : Option String) (m1 m2 m3 : Option ℚ) : List Process :=
  [{ Pid := 10, Name := n1, CPUPercent := some 2, MemoryPercent := m1 },
   { Pid := 20, Name := n2, CPUPercent := some 5, MemoryPercent := m2 },
   { Pid := 5, Name := n3, CPUPercent := some 5, MemoryPercent := m3 }]

/-- A process table in which every lookup and every kill succeeds. -/
def permissiveTable : ProcessTable := { NewProcess := fun _ => none, Kill := fun _ => none }

/-- A process table in which no process is found. -/
def emptyTable : ProcessTable :=
  { NewProcess := fun _ => some "process does not exist", Kill := fun _ => none }

/-- A process table in which every process is found and no kill is permitted. -/
def deniedTable : ProcessTable :=
  { NewProcess := fun _ => none, Kill := fun _ => some "operation not permitted" }

/-- The memory scenario: 17179869184 bytes in total, 8589934592 used, 50 percent used. -/
def scenarioMemory : VirtualMemoryStat :=
  { Total := 17179869184, Used := 8589934592, UsedPercent := 50 }

/-- Two idle processes, pid 9 enumerated before pid 4. -/
def twoIdleProcesses : List Process :=
  [{ Pid := 9, Name := some "sleep", CPUPercent := some 0, MemoryPercent := some 0 },
   { Pid := 4, Name := none, CPUPercent := none, MemoryPercent := none }]

/-- A memory report of 2^53 + 1 bytes in total, a byte count that no `float64` holds. -/
def largeMemory : VirtualMemoryStat :=
  { Total := 9007199254740993, Used := 0, UsedPercent := 0 }

/-- A pass in which every query fails. -/
def quietOS : OS :=
  { cpuPercent := .error "unavailable", virtualMemory := .error "unavailable",
    diskUsage := .error "unavailable", ioCounters := .error "unavailable",
    processes := .error "unavailable" }

end Main

/-! ## Correctness of the sort -/

namespace GoSort

variable {α : Type}

theorem length_Swap (data : List α) (i j : Nat) : (Swap data i j).length = data.length := by
  unfold Swap; split <;> simp

theorem getElem?_Swap (data : List α) (i j k : Nat) (hi : i < data.length)
    (hj : j < data.length) : (Swap data i j)[k]? = data[swapIdx i j k]? := by
  unfold Swap swapIdx
  rw [List.getElem?_eq_getElem hi, List.getElem?_eq_getElem hj]
  simp only [List.getElem?_set, List.length_set]
  by_cases h1 : k = j
  · subst h1
    by_cases h2 : k = i
    · subst h2; simp [hi]
    · simp [hj, h2]
  · by_cases h2 : k = i
    · subst h2; simp [h1, hi, Ne.symm h1]
    · simp [h1, h2, Ne.symm h1, Ne.symm h2]

theorem cons_set_perm (h : α) : ∀ (t : List α) (j : Nat) (x : α), t[j]? = some x →
    (x :: t.set j h).Perm (h :: t)
  | [], j, x, hx => by simp at hx
  | y :: t, 0, x, hx => by
    simp at hx; subst hx
    exact List.Perm.swap h y t
  | y :: t, j + 1, x, hx => by
    simp at hx
    have ih := cons_set_perm h t j x hx
    simp only [List.set_cons_succ]
    exact (List.Perm.swap y x _).trans ((ih.cons y).trans (List.Perm.swap h y t))

theorem set_set_perm_aux : ∀ (l : List α) (i j : Nat) (x y : α), l[i]? = some x → l[j]? = some y →
    ((l.set i y).set j x).Perm l
  | [], i, j, x, y, hx, _ => by simp at hx
  | h :: t, 0, 0, x, y, hx, hy => by
    simp at hx hy; subst hx; subst hy; simp
  | h :: t, 0, j + 1, x, y, hx, hy => by
    simp at hx hy; subst hx
    simpa using cons_set_perm h t j y hy
  | h :: t, i + 1, 0, x, y, hx, hy => by
    simp at hx hy; subst hy
    simpa using cons_set_perm h t i x hx
  | h :: t, i + 1, j + 1, x, y, hx, hy => by
    simp at hx hy
    simpa using set_set_perm_aux t i j x y hx hy

theorem Swap_perm (data : List α) (i j : Nat) : (Swap data i j).Perm data := by
  unfold Swap
  split
  · next x y hx hy => exact set_set_perm_aux data i j x y hx hy
  · exact List.Perm.refl _

theorem Shuffled.refl (a b : Nat) (xs : List α) : Shuffled a b xs xs :=
  ⟨rfl, fun _ _ => rfl, fun k h1 h2 => ⟨k, h1, h2, rfl⟩, List.Perm.refl _⟩

theorem Shuffled.trans {a b : Nat} {xs ys zs : List α} (h1 : Shuffled a b xs ys)
    (h2 : Shuffled a b ys zs) : Shuffled a b xs zs := by
  refine ⟨h2.length_eq.trans h1.length_eq, fun k hk => (h2.outside k hk).trans (h1.outside k hk),
    fun k hk1 hk2 => ?_, h2.perm.trans h1.perm⟩
  obtain ⟨k', hk1', hk2', e⟩ := h2.inside k hk1 hk2
  obtain ⟨k'', hk1'', hk2'', e'⟩ := h1.inside k' hk1' hk2'
  exact ⟨k'', hk1'', hk2'', e.trans e'⟩

theorem Shuffled.mono {a b a' b' : Nat} {xs ys : List α} (h : Shuffled a' b' xs ys)
    (ha : a ≤ a') (hb : b' ≤ b) : Shuffled a b xs ys := by
  refine ⟨h.length_eq, fun k hk => h.outside k (by omega), fun k hk1 hk2 => ?_, h.perm⟩
  by_cases hin : a' ≤ k ∧ k < b'
  · obtain ⟨k', h1, h2, e⟩ := h.inside k hin.1 hin.2
    exact ⟨k', by omega, by omega, e⟩
  · exact ⟨k, hk1, hk2, h.outside k (by omega)⟩

theorem Shuffled.swap {a b i j : Nat} (xs : List α) (hai : a ≤ i) (hib : i < b) (haj : a ≤ j)
    (hjb : j < b) (hb : b ≤ xs.length) : Shuffled a b xs (Swap xs i j) := by
  have hi : i < xs.length := by omega
  have hj : j < xs.length := by omega
  refine ⟨length_Swap _ _ _, fun k hk => ?_, fun k hk1 hk2 => ?_, Swap_perm _ _ _⟩
  · rw [getElem?_Swap _ _ _ _ hi hj]
    unfold swapIdx
    rw [if_neg (by omega), if_neg (by omega)]
  · refine ⟨swapIdx i j k, ?_, ?_, getElem?_Swap _ _ _ _ hi hj⟩ <;>
      (unfold swapIdx; split_ifs <;> omega)

theorem Less_congr (less : α → α → Bool) {xs ys : List α} {i j i' j' : Nat}
    (hi : xs[i]? = ys[i']?) (hj : xs[j]? = ys[j']?) :
    Less less xs i j = Less less ys i' j' := by
  unfold Less; rw [hi, hj]

theorem Less_Swap (less : α → α → Bool) (data : List α) (i j p q : Nat) (hi : i < data.length)
    (hj : j < data.length) :
    Less less (Swap data i j) p q = Less less data (swapIdx i j p) (swapIdx i j q) :=
  Less_congr less (getElem?_Swap _ _ _ _ hi hj) (getElem?_Swap _ _ _ _ hi hj)

theorem Less_asymm {less : α → α → Bool} (sw : StrictWeakOrder less) (data : List α) (p q : Nat)
    (h : Less less data p q = true) : Less less data q p = false := by
  unfold Less at *
  cases hp : data[p]? <;> cases hq : data[q]? <;> simp_all
  exact sw.asymm _ _ h

theorem Less_irrefl {less : α → α → Bool} (sw : StrictWeakOrder less) (data : List α) (p : Nat) :
    Less less data p p = false := by
  cases h : Less less data p p
  · rfl
  · have := Less_asymm sw data p p h
    simp_all

theorem Less_le_trans {less : α → α → Bool} (sw : StrictWeakOrder less) (data : List α)
    {p q r : Nat} (hq : q < data.length) (h1 : Less less data q p = false)
    (h2 : Less less data r q = false) : Less less data r p = false := by
  unfold Less at *
  rw [List.getElem?_eq_getElem hq] at h1 h2
  cases hp : data[p]? <;> cases hr : data[r]? <;> simp_all
  exact sw.le_trans _ _ _ h1 h2

theorem Shuffled.Less_outside (less : α → α → Bool) {a b : Nat} {xs ys : List α}
    (h : Shuffled a b xs ys) {p q : Nat} (hp : p < a ∨ b ≤ p) (hq : q < a ∨ b ≤ q) :
    Less less ys p q = Less less xs p q :=
  Less_congr less (h.outside p hp) (h.outside q hq)

/-- An element outside the range that is not above any range element stays so. -/
theorem Shuffled.le_range (less : α → α → Bool) {a b : Nat} {xs ys : List α}
    (h : Shuffled a b xs ys) {m : Nat} (hm : m < a ∨ b ≤ m)
    (hP : ∀ k, a ≤ k → k < b → Less less xs k m = false) :
    ∀ k, a ≤ k → k < b → Less less ys k m = false := by
  intro k h1 h2
  obtain ⟨k', h1', h2', e⟩ := h.inside k h1 h2
  rw [Less_congr less e (h.outside m hm)]; exact hP k' h1' h2'

/-- An element outside the range that is not below any range element stays so. -/
theorem Shuffled.range_le (less : α → α → Bool) {a b : Nat} {xs ys : List α}
    (h : Shuffled a b xs ys) {m : Nat} (hm : m < a ∨ b ≤ m)
    (hP : ∀ k, a ≤ k → k < b → Less less xs m k = false) :
    ∀ k, a ≤ k → k < b → Less less ys m k = false := by
  intro k h1 h2
  obtain ⟨k', h1', h2', e⟩ := h.inside k h1 h2
  rw [Less_congr less (h.outside m hm) e]; exact hP k' h1' h2'

theorem Shuffled.lowerBound (less : α → α → Bool) {a b : Nat} {xs ys : List α}
    (h : Shuffled a b xs ys) (hl : LowerBound less xs a b) : LowerBound less ys a b := by
  intro k ha h1 h2
  exact h.le_range less (Or.inl (by omega)) (fun k' h1' h2' => hl k' ha h1' h2') k h1 h2

theorem Shuffled.sortedRange_outside (less : α → α → Bool) {a b c d : Nat} {xs ys : List α}
    (h : Shuffled a b xs ys) (hs : SortedRange less xs c d) (hd : d ≤ a ∨ b ≤ c) :
    SortedRange less ys c d := by
  intro i j h1 h2 h3
  rw [h.Less_outside less (by omega) (by omega)]
  exact hs i j h1 h2 h3

theorem InsInv.sorted {less : α → α → Bool} (sw : StrictWeakOrder less) {data : List α}
    {a i j : Nat} (hj : j ≤ i) (hi : i < data.length) (h : InsInv less data a i j)
    (hstop : j ≤ a ∨ Less less data j (j - 1) = false) : SortedRange less data a (i + 1) := by
  intro p q h1 h2 h3
  by_cases hp : p = j
  · subst hp; exact h.2 q h2 (by omega)
  · by_cases hq : q = j
    · subst hq
      rcases hstop with hs | hs
      · omega
      · by_cases hp1 : p = q - 1
        · subst hp1; exact hs
        · have h4 := h.1 p (q - 1) h1 (by omega) (by omega) hp (by omega)
          exact Less_le_trans sw data (by omega) h4 hs
    · exact h.1 p q h1 h2 (by omega) hp hq

theorem insertionSort_inner_spec {less : α → α → Bool} (sw : StrictWeakOrder less) (a i : Nat) :
    ∀ (j : Nat) (data : List α), a ≤ j → j ≤ i → i < data.length → InsInv less data a i j →
      Shuffled a (i + 1) data (insertionSort_inner less a j data) ∧
      SortedRange less (insertionSort_inner less a j data) a (i + 1)
  | 0, data, _, hji, hi, hinv => by
    simp only [insertionSort_inner]
    exact ⟨Shuffled.refl _ _ _, hinv.sorted sw hji hi (Or.inl (by omega))⟩
  | j + 1, data, haj, hji, hi, hinv => by
    simp only [insertionSort_inner]
    split
    · next hc =>
      simp only [Bool.and_eq_true, decide_eq_true_eq] at hc
      obtain ⟨hlt, hless⟩ := hc
      have hj1 : j + 1 < data.length := by omega
      have hj0 : j < data.length := by omega
      have hinv' : InsInv less (Swap data (j + 1) j) a i j := by
        constructor
        · intro p q h1 h2 h3 hp hq
          rw [Less_Swap less data _ _ _ _ hj1 hj0]
          unfold swapIdx
          by_cases hq1 : q = j + 1
          · subst hq1
            rw [if_pos rfl, if_neg (by omega), if_neg hp]
            exact hinv.1 p j h1 (by omega) (by omega) (by omega) (by omega)
          · rw [if_neg hq1, if_neg hq]
            by_cases hp1 : p = j + 1
            · subst hp1
              rw [if_pos rfl]
              exact hinv.1 j q (by omega) (by omega) h3 (by omega) hq1
            · rw [if_neg hp1, if_neg hp]
              exact hinv.1 p q h1 h2 h3 hp1 hq1
        · intro q h1 h2
          rw [Less_Swap less data _ _ _ _ hj1 hj0]
          unfold swapIdx
          rw [if_neg (show ¬ j = j + 1 by omega), if_pos rfl]
          by_cases hq1 : q = j + 1
          · subst hq1
            rw [if_pos rfl]
            exact Less_asymm sw data _ _ hless
          · rw [if_neg hq1, if_neg (by omega)]
            exact hinv.2 q (by omega) h2
      have ih := insertionSort_inner_spec sw a i j (Swap data (j + 1) j) (by omega) (by omega)
        (by rw [length_Swap]; exact hi) hinv'
      exact ⟨(Shuffled.swap data (by omega) (by omega) (by omega) (by omega) (by omega)).trans ih.1,
        ih.2⟩
    · next hc =>
      simp only [Bool.and_eq_true, decide_eq_true_eq, not_and, Bool.not_eq_true] at hc
      refine ⟨Shuffled.refl _ _ _, hinv.sorted sw hji hi ?_⟩
      by_cases h : a < j + 1
      · exact Or.inr (by simpa using hc h)
      · exact Or.inl (by omega)

theorem insertionSort_outer_spec {less : α → α → Bool} (sw : StrictWeakOrder less) (a b : Nat) :
    ∀ (n i : Nat) (data : List α), a < i → b ≤ data.length → b - i ≤ n →
      SortedRange less data a i →
      Shuffled a b data (insertionSort_outer less a b n i data) ∧
      SortedRange less (insertionSort_outer less a b n i data) a b
  | 0, i, data, _, _, hn, hs => by
    simp only [insertionSort_outer]
    exact ⟨Shuffled.refl _ _ _, fun p q h1 h2 h3 => hs p q h1 h2 (by omega)⟩
  | n + 1, i, data, hai, hb, hn, hs => by
    simp only [insertionSort_outer]
    split
    · next hib =>
      have hinv : InsInv less data a i i :=
        ⟨fun p q h1 h2 h3 _ hq => hs p q h1 h2 (by omega), fun q h1 h2 => by omega⟩
      obtain ⟨hsh, hso⟩ := insertionSort_inner_spec sw a i i data (by omega) (by omega)
        (by omega) hinv
      obtain ⟨hsh', hso'⟩ := insertionSort_outer_spec sw a b n (i + 1)
        (insertionSort_inner less a i data) (by omega) (by rw [hsh.length_eq]; exact hb)
        (by omega) hso
      exact ⟨(hsh.mono (Nat.le_refl _) (by omega)).trans hsh', hso'⟩
    · next hib =>
      exact ⟨Shuffled.refl _ _ _, fun p q h1 h2 h3 => hs p q h1 h2 (by omega)⟩

theorem insertionSort_func_spec {less : α → α → Bool} (sw : StrictWeakOrder less)
    (data : List α) (a b : Nat) (hb : b ≤ data.length) :
    Shuffled a b data (insertionSort_func less data a b) ∧
    SortedRange less (insertionSort_func less data a b) a b :=
  insertionSort_outer_spec sw a b _ _ data (by omega) hb (by omega)
    (fun p q h1 h2 h3 => by omega)

theorem reverseRange_loop_spec (a b : Nat) : ∀ (n i j : Nat) (data : List α), a ≤ i → j < b →
    b ≤ data.length → Shuffled a b data (reverseRange_loop n i j data)
  | 0, _, _, data, _, _, _ => by simp only [reverseRange_loop]; exact Shuffled.refl _ _ _
  | n + 1, i, j, data, hi, hj, hb => by
    simp only [reverseRange_loop]
    split
    · next hij =>
      have h1 : Shuffled a b data (Swap data i j) :=
        Shuffled.swap data hi (by omega) (by omega) hj hb
      exact h1.trans (reverseRange_loop_spec a b n (i + 1) (j - 1) _ (by omega) (by omega)
        (by rw [length_Swap]; exact hb))
    · exact Shuffled.refl _ _ _

theorem reverseRange_func_spec (data : List α) (a b : Nat) (hab : a < b) (hb : b ≤ data.length) :
    Shuffled a b data (reverseRange_func data a b) :=
  reverseRange_loop_spec a b _ _ _ data (Nat.le_refl _) (by omega) hb

theorem nextPowerOfTwo_le (length : Nat) (h : 0 < length) : nextPowerOfTwo length ≤ 2 * length := by
  unfold nextPowerOfTwo bitsLen
  rw [if_neg (by omega), Nat.one_shiftLeft, Nat.pow_succ]
  have := Nat.log2_self_le (n := length) (by omega)
  omega

theorem breakPatterns_loop_spec (a b length modulus idx : Nat) (hl : length = b - a)
    (hm : modulus ≤ 2 * length) (hlen : 0 < length) (hidx1 : a + 1 ≤ idx) (hidx2 : idx + 2 ≤ b) :
    ∀ (n i random : Nat) (data : List α), i + n ≤ 3 → b ≤ data.length →
      Shuffled a b data (breakPatterns_loop a length modulus idx n i random data)
  | 0, _, _, data, _, _ => by simp only [breakPatterns_loop]; exact Shuffled.refl _ _ _
  | n + 1, i, random, data, hin, hb => by
    simp only [breakPatterns_loop]
    have hand : xorshift_Next random &&& (modulus - 1) ≤ modulus - 1 := Nat.and_le_right
    have hother : (if xorshift_Next random &&& (modulus - 1) ≥ length then
        (xorshift_Next random &&& (modulus - 1)) - length
        else xorshift_Next random &&& (modulus - 1)) < length := by
      split <;> omega
    have h1 : Shuffled a b data (Swap data (idx - 1 + i) (a + (if xorshift_Next random &&&
        (modulus - 1) ≥ length then (xorshift_Next random &&& (modulus - 1)) - length
        else xorshift_Next random &&& (modulus - 1)))) :=
      Shuffled.swap data (by omega) (by omega) (by omega) (by omega) hb
    exact h1.trans (breakPatterns_loop_spec a b length modulus idx hl hm hlen hidx1 hidx2 n (i + 1)
      _ _ (by omega) (by rw [length_Swap]; exact hb))

theorem breakPatterns_func_spec (data : List α) (a b : Nat) (hb : b ≤ data.length) :
    Shuffled a b data (breakPatterns_func data a b) := by
  unfold breakPatterns_func
  simp only
  split
  · next h8 =>
    have h4 : 2 ≤ (b - a) / 4 := by omega
    exact breakPatterns_loop_spec a b (b - a) _ _ rfl (nextPowerOfTwo_le _ (by omega)) (by omega)
      (by omega) (by omega) 3 0 _ data (by omega) hb
  · exact Shuffled.refl _ _ _

theorem order2_func_cases (less : α → α → Bool) (data : List α) (a b swaps : Nat) :
    ((order2_func less data a b swaps).1 = a ∧ (order2_func less data a b swaps).2.1 = b) ∨
    ((order2_func less data a b swaps).1 = b ∧ (order2_func less data a b swaps).2.1 = a) := by
  unfold order2_func; split <;> simp

theorem median_func_bounds (less : α → α → Bool) (data : List α) (a b c swaps lo hi : Nat)
    (ha : lo ≤ a ∧ a ≤ hi) (hb : lo ≤ b ∧ b ≤ hi) (hc : lo ≤ c ∧ c ≤ hi) :
    lo ≤ (median_func less data a b c swaps).1 ∧ (median_func less data a b c swaps).1 ≤ hi := by
  unfold median_func
  simp only
  rcases order2_func_cases less data a b swaps with h1 | h1 <;>
  rcases order2_func_cases less data (order2_func less data a b swaps).2.1 c
    (order2_func less data a b swaps).2.2 with h2 | h2 <;>
  rcases order2_func_cases less data (order2_func less data a b swaps).1
    (order2_func less data (order2_func less data a b swaps).2.1 c
      (order2_func less data a b swaps).2.2).1
    (order2_func less data (order2_func less data a b swaps).2.1 c
      (order2_func less data a b swaps).2.2).2.2 with h3 | h3 <;>
  (rw [h3.2]; first | (rw [h2.1, h1.2]; exact hb) | (rw [h2.1, h1.2]; exact ha) |
    (rw [h2.1]; exact hc) | (rw [h1.1]; exact ha) | (rw [h1.1]; exact hb))

theorem choosePivot_func_bounds (less : α → α → Bool) (data : List α) (a b : Nat)
    (hab : a < b) :
    a ≤ (choosePivot_func less data a b).1 ∧ (choosePivot_func less data a b).1 < b := by
  have key : ∀ r : Nat × Nat, (a ≤ r.1 ∧ r.1 ≤ b - 1) →
      a ≤ (if r.2 = 0 then (r.1, sortedHint.increasingHint)
        else if r.2 = maxSwaps then (r.1, sortedHint.decreasingHint)
        else (r.1, sortedHint.unknownHint)).1 ∧
      (if r.2 = 0 then (r.1, sortedHint.increasingHint)
        else if r.2 = maxSwaps then (r.1, sortedHint.decreasingHint)
        else (r.1, sortedHint.unknownHint)).1 < b := by
    intro r hr
    split_ifs <;> simp <;> omega
  unfold choosePivot_func
  simp only
  apply key
  have hq : (b - a) / 4 * 3 < b - a := by omega
  split
  · next h8 =>
    split
    · next h50 =>
      unfold shortestNinther at h50
      have h12 : 12 ≤ (b - a) / 4 := by omega
      unfold medianAdjacent_func
      apply median_func_bounds <;> apply median_func_bounds <;> omega
    · apply median_func_bounds <;> omega
  · simp only; omega

theorem scanUp_spec (c : Nat → Bool) (j : Nat) : ∀ (n i : Nat), i ≤ j + 1 → j + 1 - i ≤ n →
    i ≤ scanUp c j n i ∧ scanUp c j n i ≤ j + 1 ∧
    (∀ k, i ≤ k → k < scanUp c j n i → c k = true) ∧
    (scanUp c j n i ≤ j → c (scanUp c j n i) = false)
  | 0, i, h1, h2 => by
    simp only [scanUp]
    exact ⟨Nat.le_refl _, h1, fun k h3 h4 => by omega, fun h => by omega⟩
  | n + 1, i, h1, h2 => by
    simp only [scanUp]
    split
    · next hc =>
      simp only [Bool.and_eq_true, decide_eq_true_eq] at hc
      obtain ⟨ih1, ih2, ih3, ih4⟩ := scanUp_spec c j n (i + 1) (by omega) (by omega)
      refine ⟨by omega, ih2, fun k h3 h4 => ?_, ih4⟩
      by_cases hk : k = i
      · subst hk; exact hc.2
      · exact ih3 k (by omega) h4
    · next hc =>
      simp only [Bool.and_eq_true, decide_eq_true_eq, not_and, Bool.not_eq_true] at hc
      exact ⟨Nat.le_refl _, h1, fun k h3 h4 => by omega, fun h => hc h⟩

theorem scanDown_spec (c : Nat → Bool) (i : Nat) (hi : 1 ≤ i) : ∀ (j : Nat), i ≤ j + 1 →
    scanDown c i j ≤ j ∧ i ≤ scanDown c i j + 1 ∧
    (∀ k, scanDown c i j < k → k ≤ j → c k = true) ∧
    (i ≤ scanDown c i j → c (scanDown c i j) = false)
  | 0, h1 => by
    simp only [scanDown]
    exact ⟨Nat.le_refl _, h1, fun k h3 h4 => by omega, fun h => by omega⟩
  | j + 1, h1 => by
    simp only [scanDown]
    split
    · next hc =>
      simp only [Bool.and_eq_true, decide_eq_true_eq] at hc
      obtain ⟨ih1, ih2, ih3, ih4⟩ := scanDown_spec c i hi j (by omega)
      refine ⟨by omega, ih2, fun k h3 h4 => ?_, ih4⟩
      by_cases hk : k = j + 1
      · subst hk; exact hc.2
      · exact ih3 k h3 (by omega)
    · next hc =>
      simp only [Bool.and_eq_true, decide_eq_true_eq, not_and, Bool.not_eq_true] at hc
      exact ⟨Nat.le_refl _, by omega, fun k h3 h4 => by omega, fun h => hc h⟩

theorem TwoInv.scan {c : Nat → Bool} {a b i j : Nat} (h : TwoInv c a b i j) :
    TwoInv c a b (scanUp c j (j + 1 - i) i)
      (scanDown (fun k => !c k) (scanUp c j (j + 1 - i) i) j) ∧
    i ≤ scanUp c j (j + 1 - i) i ∧
    scanDown (fun k => !c k) (scanUp c j (j + 1 - i) i) j ≤ j ∧
    (scanUp c j (j + 1 - i) i ≤ scanDown (fun k => !c k) (scanUp c j (j + 1 - i) i) j →
      c (scanUp c j (j + 1 - i) i) = false ∧
      c (scanDown (fun k => !c k) (scanUp c j (j + 1 - i) i) j) = true) := by
  obtain ⟨h1, h2, h3, h4, h5⟩ := h
  obtain ⟨u1, u2, u3, u4⟩ := scanUp_spec c j (j + 1 - i) i h2 (Nat.le_refl _)
  obtain ⟨d1, d2, d3, d4⟩ := scanDown_spec (fun k => !c k) (scanUp c j (j + 1 - i) i)
    (by omega) j u2
  refine ⟨⟨by omega, d2, by omega, fun k k1 k2 => ?_, fun k k1 k2 => ?_⟩, u1, d1, fun hle => ?_⟩
  · by_cases hk : k < i
    · exact h4 k k1 hk
    · exact u3 k (by omega) k2
  · by_cases hk : j < k
    · exact h5 k hk k2
    · simpa using d3 k k1 (by omega)
  · exact ⟨u4 (by omega), by simpa using d4 hle⟩

theorem TwoInv.swapStep {c : Nat → Bool} {a b i j : Nat} (h : TwoInv c a b i j)
    (c' : Nat → Bool) (hij : i ≤ j) (hi : c i = false) (hj : c j = true)
    (hc : ∀ k, c' k = c (swapIdx i j k)) :
    TwoInv c' a b (i + 1) (j - 1) := by
  obtain ⟨h1, h2, h3, h4, h5⟩ := h
  have hne : i ≠ j := by
    intro e; rw [e] at hi; rw [hi] at hj; exact Bool.noConfusion hj
  refine ⟨by omega, by omega, by omega, fun k k1 k2 => ?_, fun k k1 k2 => ?_⟩
  · rw [hc]; unfold swapIdx
    by_cases hk : k = i
    · rw [if_pos hk]; exact hj
    · rw [if_neg hk, if_neg (by omega)]; exact h4 k k1 (by omega)
  · rw [hc]; unfold swapIdx
    by_cases hk : k = j
    · rw [if_neg (by omega), if_pos hk]; exact hi
    · rw [if_neg (by omega), if_neg hk]; exact h5 k (by omega) k2

theorem TwoInv.exit {c : Nat → Bool} {a b i j : Nat} (h : TwoInv c a b i j) (hgt : i > j) :
    TwoInv c a b (j + 1) j := by
  have : i = j + 1 := by have := h.2.1; omega
  subst this; exact h

theorem partition_loop_spec (less : α → α → Bool) (a b : Nat) :
    ∀ (n i j : Nat) (data : List α), TwoInv (fun k => Less less data k a) a b i j →
      j + 1 - i ≤ n → b ≤ data.length →
      Shuffled (a + 1) b data (partition_loop less a n i j data).1 ∧
      TwoInv (fun k => Less less (partition_loop less a n i j data).1 k a) a b
        ((partition_loop less a n i j data).2 + 1) (partition_loop less a n i j data).2
  | 0, i, j, data, hinv, hn, hb => by
    simp only [partition_loop]
    exact ⟨Shuffled.refl _ _ _, hinv.exit (by omega)⟩
  | n + 1, i, j, data, hinv, hn, hb => by
    simp only [partition_loop]
    obtain ⟨hs, hs1, hs2, hs3⟩ := hinv.scan
    generalize scanUp (fun i => Less less data i a) j (j + 1 - i) i = i1 at *
    generalize scanDown (fun j => !Less less data j a) i1 j = j1 at *
    split
    · next hgt => exact ⟨Shuffled.refl _ _ _, hs.exit hgt⟩
    · next hgt =>
      have hle := Nat.le_of_not_gt hgt
      obtain ⟨e1, e2⟩ := hs3 hle
      have hsl := hs.2.2.1
      have hsa := hs.1
      have hi1 : i1 < data.length := by omega
      have hj1 : j1 < data.length := by omega
      have hinv' := hs.swapStep (fun k => Less less (Swap data i1 j1) k a) hle e1 e2
        (fun k => by
          simp only
          rw [Less_Swap less data _ _ _ _ hi1 hj1]
          congr 1
          unfold swapIdx
          rw [if_neg (by omega), if_neg (by omega)])
      obtain ⟨r1, r2⟩ := partition_loop_spec less a b n (i1 + 1) (j1 - 1) (Swap data i1 j1)
        hinv' (by omega) (by rw [length_Swap]; exact hb)
      exact ⟨(Shuffled.swap data (by omega) (by omega) (by omega) (by omega) hb).trans r1, r2⟩

theorem partition_final {less : α → α → Bool} (sw : StrictWeakOrder less) (a b j : Nat)
    (data : List α) (hinv : TwoInv (fun k => Less less data k a) a b (j + 1) j)
    (hb : b ≤ data.length) :
    Shuffled a b data (Swap data j a) ∧ a ≤ j ∧ j < b ∧
    (∀ k, a ≤ k → k < j → Less less (Swap data j a) j k = false) ∧
    (∀ k, j < k → k < b → Less less (Swap data j a) k j = false) := by
  obtain ⟨h1, h2, h3, h4, h5⟩ := hinv
  have hj : j < data.length := by omega
  have ha : a < data.length := by omega
  refine ⟨Shuffled.swap data (by omega) h3 (Nat.le_refl _) (by omega) hb, by omega, h3,
    fun k k1 k2 => ?_, fun k k1 k2 => ?_⟩
  · rw [Less_Swap less data _ _ _ _ hj ha]
    apply Less_asymm sw
    unfold swapIdx
    rw [if_pos rfl]
    by_cases hk : k = a
    · subst hk; rw [if_neg (by omega), if_pos rfl]; exact h4 j (by omega) (by omega)
    · rw [if_neg (by omega), if_neg hk]; exact h4 k (by omega) (by omega)
  · rw [Less_Swap less data _ _ _ _ hj ha]
    unfold swapIdx
    rw [if_neg (by omega), if_neg (by omega), if_pos rfl]
    exact h5 k k1 k2

theorem partition_func_spec {less : α → α → Bool} (sw : StrictWeakOrder less) (data : List α)
    (a b pivot : Nat) (hap : a ≤ pivot) (hpb : pivot < b) (hb : b ≤ data.length) :
    Shuffled a b data (partition_func less data a b pivot).1 ∧
    a ≤ (partition_func less data a b pivot).2.1 ∧ (partition_func less data a b pivot).2.1 < b ∧
    (∀ k, a ≤ k → k < (partition_func less data a b pivot).2.1 →
      Less less (partition_func less data a b pivot).1
        (partition_func less data a b pivot).2.1 k = false) ∧
    (∀ k, (partition_func less data a b pivot).2.1 < k → k < b →
      Less less (partition_func less data a b pivot).1 k
        (partition_func less data a b pivot).2.1 = false) := by
  have h0 : Shuffled a b data (Swap data a pivot) :=
    Shuffled.swap data (Nat.le_refl _) (by omega) hap hpb hb
  have hb0 : b ≤ (Swap data a pivot).length := by rw [length_Swap]; exact hb
  have hinv0 : TwoInv (fun k => Less less (Swap data a pivot) k a) a b (a + 1) (b - 1) :=
    ⟨Nat.le_refl _, by omega, by omega, fun k k1 k2 => by omega, fun k k1 k2 => by omega⟩
  obtain ⟨hs, hs1, hs2, hs3⟩ := hinv0.scan
  unfold partition_func
  simp only
  generalize Swap data a pivot = d0 at *
  generalize scanUp (fun i => Less less d0 i a) (b - 1) (b - 1 + 1 - (a + 1)) (a + 1) = i1 at *
  generalize scanDown (fun j => !Less less d0 j a) i1 (b - 1) = j1 at *
  split
  · next hgt =>
    obtain ⟨f1, f2, f3, f4, f5⟩ := partition_final sw a b j1 d0 (hs.exit hgt) hb0
    exact ⟨h0.trans f1, f2, f3, f4, f5⟩
  · next hgt =>
    have hle := Nat.le_of_not_gt hgt
    obtain ⟨e1, e2⟩ := hs3 hle
    have hsl := hs.2.2.1
    have hsa := hs.1
    have hi1 : i1 < d0.length := by omega
    have hj1 : j1 < d0.length := by omega
    have hinv' := hs.swapStep (fun k => Less less (Swap d0 i1 j1) k a) hle e1 e2
      (fun k => by
        simp only
        rw [Less_Swap less _ _ _ _ _ hi1 hj1]
        congr 1
        unfold swapIdx
        rw [if_neg (by omega), if_neg (by omega)])
    obtain ⟨r1, r2⟩ := partition_loop_spec less a b (j1 - i1) (i1 + 1) (j1 - 1) (Swap d0 i1 j1)
      hinv' (by omega) (by rw [length_Swap]; exact hb0)
    have hsw : Shuffled a b d0 (Swap d0 i1 j1) :=
      Shuffled.swap d0 (by omega) (by omega) (by omega) (by omega) hb0
    obtain ⟨f1, f2, f3, f4, f5⟩ := partition_final sw a b _ _ r2
      (by rw [r1.length_eq, length_Swap]; exact hb0)
    exact ⟨(h0.trans (hsw.trans (r1.mono (by omega) (Nat.le_refl _)))).trans f1, f2, f3, f4, f5⟩

theorem partitionEqual_loop_spec (less : α → α → Bool) (a b : Nat) :
    ∀ (n i j : Nat) (data : List α), TwoInv (fun k => !Less less data a k) a b i j →
      j + 1 - i ≤ n → b ≤ data.length →
      Shuffled (a + 1) b data (partitionEqual_loop less a n i j data).1 ∧
      TwoInv (fun k => !Less less (partitionEqual_loop less a n i j data).1 a k) a b
        (partitionEqual_loop less a n i j data).2 ((partitionEqual_loop less a n i j data).2 - 1)
  | 0, i, j, data, hinv, hn, hb => by
    simp only [partitionEqual_loop]
    refine ⟨Shuffled.refl _ _ _, ?_⟩
    have h1 := hinv.2.1
    have h2 := hinv.1
    have : j = i - 1 := by omega
    subst this; exact hinv
  | n + 1, i, j, data, hinv, hn, hb => by
    simp only [partitionEqual_loop]
    obtain ⟨hs, hs1, hs2, hs3⟩ := hinv.scan
    simp only [Bool.not_not] at hs hs1 hs2 hs3
    generalize scanUp (fun i => !Less less data a i) j (j + 1 - i) i = i1 at *
    generalize scanDown (fun j => Less less data a j) i1 j = j1 at *
    split
    · next hgt =>
      refine ⟨Shuffled.refl _ _ _, ?_⟩
      have h1 := hs.2.1
      have h2 := hs.1
      have : j1 = i1 - 1 := by omega
      subst this; exact hs
    · next hgt =>
      have hle := Nat.le_of_not_gt hgt
      obtain ⟨e1, e2⟩ := hs3 hle
      have hsl := hs.2.2.1
      have hsa := hs.1
      have hi1 : i1 < data.length := by omega
      have hj1 : j1 < data.length := by omega
      have hinv' := hs.swapStep (fun k => !Less less (Swap data i1 j1) a k) hle e1 e2
        (fun k => by
          simp only
          rw [Less_Swap less data _ _ _ _ hi1 hj1]
          congr 2
          unfold swapIdx
          rw [if_neg (by omega), if_neg (by omega)])
      obtain ⟨r1, r2⟩ := partitionEqual_loop_spec less a b n (i1 + 1) (j1 - 1) (Swap data i1 j1)
        hinv' (by omega) (by rw [length_Swap]; exact hb)
      exact ⟨(Shuffled.swap data (by omega) (by omega) (by omega) (by omega) hb).trans r1, r2⟩

theorem partitionEqual_func_spec {less : α → α → Bool} (sw : StrictWeakOrder less)
    (data : List α) (a b pivot : Nat) (hap : a ≤ pivot) (hpb : pivot < b) (hb : b ≤ data.length)
    (hmin : ∀ k, a ≤ k → k < b → Less less data k pivot = false) :
    Shuffled a b data (partitionEqual_func less data a b pivot).1 ∧
    a < (partitionEqual_func less data a b pivot).2 ∧
    (partitionEqual_func less data a b pivot).2 ≤ b ∧
    (∀ k, a ≤ k → k < (partitionEqual_func less data a b pivot).2 →
      Less less (partitionEqual_func less data a b pivot).1 a k = false) ∧
    (∀ k, a ≤ k → k < b → Less less (partitionEqual_func less data a b pivot).1 k a = false) := by
  have ha : a < data.length := by omega
  have hp : pivot < data.length := by omega
  have h0 : Shuffled a b data (Swap data a pivot) :=
    Shuffled.swap data (Nat.le_refl _) (by omega) hap hpb hb
  have hb0 : b ≤ (Swap data a pivot).length := by rw [length_Swap]; exact hb
  have hmin0 : ∀ k, a + 1 ≤ k → k < b → Less less (Swap data a pivot) k a = false := by
    intro k k1 k2
    rw [Less_Swap less data _ _ _ _ ha hp]
    unfold swapIdx
    rw [if_neg (by omega), if_pos rfl]
    split
    · exact hmin a (Nat.le_refl _) (by omega)
    · exact hmin k (by omega) k2
  have hinv0 : TwoInv (fun k => !Less less (Swap data a pivot) a k) a b (a + 1) (b - 1) :=
    ⟨Nat.le_refl _, by omega, by omega, fun k k1 k2 => by omega, fun k k1 k2 => by omega⟩
  obtain ⟨r1, r2⟩ := partitionEqual_loop_spec less a b (b - a) (a + 1) (b - 1) _ hinv0
    (by omega) hb0
  unfold partitionEqual_func
  simp only
  obtain ⟨t1, t2, t3, t4, t5⟩ := r2
  refine ⟨h0.trans (r1.mono (by omega) (Nat.le_refl _)), by omega, by omega,
    fun k k1 k2 => ?_, fun k k1 k2 => ?_⟩
  · by_cases hk : k = a
    · subst hk; exact Less_irrefl sw _ _
    · simpa using t4 k (by omega) k2
  · by_cases hk : k = a
    · subst hk; exact Less_irrefl sw _ _
    · exact r1.le_range less (Or.inl (by omega)) hmin0 k (by omega) k2

theorem partialInsertionSort_scan_spec (less : α → α → Bool) (data : List α) (b : Nat) :
    ∀ (n i : Nat), i ≤ b → b - i ≤ n →
      i ≤ partialInsertionSort_scan less data b n i ∧
      partialInsertionSort_scan less data b n i ≤ b ∧
      (∀ k, i ≤ k → k < partialInsertionSort_scan less data b n i →
        Less less data k (k - 1) = false) ∧
      (partialInsertionSort_scan less data b n i < b →
        Less less data (partialInsertionSort_scan less data b n i)
          (partialInsertionSort_scan less data b n i - 1) = true)
  | 0, i, h1, h2 => by
    simp only [partialInsertionSort_scan]
    exact ⟨Nat.le_refl _, h1, fun k h3 h4 => by omega, fun h => by omega⟩
  | n + 1, i, h1, h2 => by
    simp only [partialInsertionSort_scan]
    split
    · next hc =>
      simp only [Bool.and_eq_true, decide_eq_true_eq, Bool.not_eq_true'] at hc
      obtain ⟨ih1, ih2, ih3, ih4⟩ := partialInsertionSort_scan_spec less data b n (i + 1)
        (by omega) (by omega)
      refine ⟨by omega, ih2, fun k h3 h4 => ?_, ih4⟩
      by_cases hk : k = i
      · subst hk; exact hc.2
      · exact ih3 k (by omega) h4
    · next hc =>
      simp only [Bool.and_eq_true, decide_eq_true_eq, Bool.not_eq_true', not_and,
        Bool.not_eq_false] at hc
      exact ⟨Nat.le_refl _, h1, fun k h3 h4 => by omega, fun h => hc h⟩

theorem SortedRange.extend {less : α → α → Bool} (sw : StrictWeakOrder less) {data : List α}
    {a i i1 : Nat} (hs : SortedRange less data a i) (hi1 : i1 ≤ data.length)
    (hadj : ∀ k, i ≤ k → k < i1 → Less less data k (k - 1) = false) :
    SortedRange less data a i1 := by
  intro p q
  induction q with
  | zero => intro _ h _; omega
  | succ q ih =>
    intro h1 h2 h3
    by_cases hq : q + 1 < i
    · exact hs p (q + 1) h1 h2 hq
    · have hq1 := hadj (q + 1) (by omega) h3
      simp only [Nat.add_sub_cancel] at hq1
      by_cases hp : p = q
      · subst hp; exact hq1
      · exact Less_le_trans sw data (by omega) (ih h1 (by omega) (by omega)) hq1

theorem partialInsertionSort_shiftLeft_eq {less : α → α → Bool} (a b : Nat) :
    ∀ (j : Nat) (data : List α), a ≤ j → j < b → b ≤ data.length → LowerBound less data a b →
      partialInsertionSort_shiftLeft less j data = insertionSort_inner less a j data
  | 0, data, _, _, _, _ => by simp only [partialInsertionSort_shiftLeft, insertionSort_inner]
  | j + 1, data, haj, hjb, hb, hl => by
    simp only [partialInsertionSort_shiftLeft, insertionSort_inner]
    by_cases h : a < j + 1
    · cases hless : Less less data (j + 1) j
      · simp
      · simp only [Bool.not_true, h, decide_True, Bool.and_self, if_true]
        simp only [Bool.false_eq_true, if_false]
        exact partialInsertionSort_shiftLeft_eq a b j _ (by omega) (by omega)
          (by rw [length_Swap]; exact hb)
          ((Shuffled.swap data (by omega) (by omega) (by omega) (by omega) hb).lowerBound less hl)
    · have e : a = j + 1 := by omega
      have hl' := hl a (by omega) (Nat.le_refl _) (by omega)
      rw [e] at hl'
      simp only [Nat.add_sub_cancel] at hl'
      simp [hl', h]

theorem partialInsertionSort_shiftRight_spec (less : α → α → Bool) (lo b : Nat) :
    ∀ (n j : Nat) (data : List α), lo < j → b ≤ data.length →
      Shuffled lo b data (partialInsertionSort_shiftRight less b n j data)
  | 0, _, data, _, _ => by
    simp only [partialInsertionSort_shiftRight]; exact Shuffled.refl _ _ _
  | n + 1, j, data, hj, hb => by
    simp only [partialInsertionSort_shiftRight]
    split
    · split
      · exact Shuffled.refl _ _ _
      · exact (Shuffled.swap data (by omega) (by omega) (by omega) (by omega) hb).trans
          (partialInsertionSort_shiftRight_spec less lo b n (j + 1) _ (by omega)
            (by rw [length_Swap]; exact hb))
    · exact Shuffled.refl _ _ _

theorem partialInsertionSort_loop_spec {less : α → α → Bool} (sw : StrictWeakOrder less)
    (a b : Nat) :
    ∀ (s i : Nat) (data : List α), a < i → i ≤ b → b ≤ data.length →
      LowerBound less data a b → SortedRange less data a i →
      Shuffled a b data (partialInsertionSort_loop less a b s i data).1 ∧
      ((partialInsertionSort_loop less a b s i data).2 = true →
        SortedRange less (partialInsertionSort_loop less a b s i data).1 a b)
  | 0, i, data, _, _, _, _, _ => by
    simp only [partialInsertionSort_loop]
    exact ⟨Shuffled.refl _ _ _, fun h => Bool.noConfusion h⟩
  | s + 1, i, data, hai, hib, hb, hl, hs => by
    simp only [partialInsertionSort_loop]
    obtain ⟨c1, c2, c3, c4⟩ := partialInsertionSort_scan_spec less data b (b - i) i hib
      (Nat.le_refl _)
    have hs1 := hs.extend sw (Nat.le_trans c2 hb) c3
    generalize partialInsertionSort_scan less data b (b - i) i = i1 at *
    split
    · next hi1 => subst hi1; exact ⟨Shuffled.refl _ _ _, fun _ => hs1⟩
    · next hi1 =>
      split
      · exact ⟨Shuffled.refl _ _ _, fun h => Bool.noConfusion h⟩
      · have hi1b : i1 < b := by omega
        have hsw : Shuffled a b data (Swap data i1 (i1 - 1)) :=
          Shuffled.swap data (by omega) (by omega) (by omega) (by omega) hb
        have hsw' : Shuffled (i1 - 1) b data (Swap data i1 (i1 - 1)) :=
          Shuffled.swap data (by omega) (by omega) (by omega) (by omega) hb
        have hb1 : b ≤ (Swap data i1 (i1 - 1)).length := by rw [length_Swap]; exact hb
        have hl1 := hsw.lowerBound less hl
        have hs2 : SortedRange less (Swap data i1 (i1 - 1)) a (i1 - 1) :=
          hsw'.sortedRange_outside less (fun p q h1 h2 h3 => hs1 p q h1 h2 (by omega))
            (Or.inl (Nat.le_refl _))
        -- shift the smaller one to the left
        have hleft : Shuffled a b (Swap data i1 (i1 - 1))
            (if i1 - a ≥ 2 then partialInsertionSort_shiftLeft less (i1 - 1)
              (Swap data i1 (i1 - 1)) else Swap data i1 (i1 - 1)) ∧
            SortedRange less (if i1 - a ≥ 2 then partialInsertionSort_shiftLeft less (i1 - 1)
              (Swap data i1 (i1 - 1)) else Swap data i1 (i1 - 1)) a i1 := by
          split
          · rw [partialInsertionSort_shiftLeft_eq a b (i1 - 1) _ (by omega) (by omega) hb1 hl1]
            have hinv : InsInv less (Swap data i1 (i1 - 1)) a (i1 - 1) (i1 - 1) :=
              ⟨fun p q h1 h2 h3 _ hq => hs2 p q h1 h2 (by omega), fun q h1 h2 => by omega⟩
            obtain ⟨u1, u2⟩ := insertionSort_inner_spec sw a (i1 - 1) (i1 - 1) _ (by omega)
              (Nat.le_refl _) (by omega) hinv
            have e : i1 - 1 + 1 = i1 := by omega
            rw [e] at u1 u2
            exact ⟨u1.mono (Nat.le_refl _) (by omega), u2⟩
          · exact ⟨Shuffled.refl _ _ _, fun p q h1 h2 h3 => by omega⟩
        obtain ⟨l1, l2⟩ := hleft
        generalize (if i1 - a ≥ 2 then partialInsertionSort_shiftLeft less (i1 - 1)
              (Swap data i1 (i1 - 1)) else Swap data i1 (i1 - 1)) = d2 at *
        have hb2 : b ≤ d2.length := by rw [l1.length_eq]; exact hb1
        -- shift the greater one to the right
        have hright : Shuffled i1 b d2
            (if b - i1 ≥ 2 then partialInsertionSort_shiftRight less b (b - (i1 + 1)) (i1 + 1) d2
              else d2) := by
          split
          · exact partialInsertionSort_shiftRight_spec less i1 b _ _ d2 (by omega) hb2
          · exact Shuffled.refl _ _ _
        generalize (if b - i1 ≥ 2 then partialInsertionSort_shiftRight less b (b - (i1 + 1))
            (i1 + 1) d2 else d2) = d3 at *
        have hsh3 : Shuffled a b data d3 :=
          (hsw.trans l1).trans (hright.mono (by omega) (Nat.le_refl _))
        obtain ⟨r1, r2⟩ := partialInsertionSort_loop_spec sw a b s i1 d3 (by omega) (by omega)
          (by rw [hsh3.length_eq]; exact hb) (hsh3.lowerBound less hl)
          (hright.sortedRange_outside less l2 (Or.inl (Nat.le_refl _)))
        exact ⟨hsh3.trans r1, r2⟩

theorem partialInsertionSort_func_spec {less : α → α → Bool} (sw : StrictWeakOrder less)
    (data : List α) (a b : Nat) (hab : a < b) (hb : b ≤ data.length)
    (hl : LowerBound less data a b) :
    Shuffled a b data (partialInsertionSort_func less data a b).1 ∧
    ((partialInsertionSort_func less data a b).2 = true →
      SortedRange less (partialInsertionSort_func less data a b).1 a b) :=
  partialInsertionSort_loop_spec sw a b _ _ data (by omega) (by omega) hb hl
    (fun p q h1 h2 h3 => by omega)

theorem swapIdx_left (i j : Nat) : swapIdx i j i = j := by simp [swapIdx]

theorem swapIdx_right (i j : Nat) : swapIdx i j j = i := by
  unfold swapIdx; split <;> simp_all

theorem swapIdx_of_ne {i j k : Nat} (h1 : k ≠ i) (h2 : k ≠ j) : swapIdx i j k = k := by
  simp [swapIdx, h1, h2]

theorem Swap_self (data : List α) (i : Nat) : Swap data i i = data := by
  unfold Swap
  split
  · next x y hx hy =>
    rw [hx] at hy
    cases hy
    apply List.ext_getElem?
    intro k
    simp only [List.getElem?_set, List.length_set]
    by_cases hk : i = k
    · subst hk
      have hlt : i < data.length := by
        rcases Nat.lt_or_ge i data.length with h | h
        · exact h
        · rw [List.getElem?_eq_none h] at hx; cases hx
      simp [hlt, hx]
    · simp [hk]
  · rfl

theorem siftDown_loop_spec {less : α → α → Bool} (sw : StrictWeakOrder less)
    (lo hi first : Nat) :
    ∀ (n root : Nat) (data : List α), lo ≤ root → first + hi ≤ data.length → hi - root ≤ n →
      (∀ p, lo ≤ p → p ≠ root → HeapAt less data first hi p) →
      (∀ q c, lo ≤ q → (root = 2 * q + 1 ∨ root = 2 * q + 2) →
        (c = 2 * root + 1 ∨ c = 2 * root + 2) → c < hi →
        Less less data (first + q) (first + c) = false) →
      Shuffled (first + lo) (first + hi) data (siftDown_loop less hi first n root data) ∧
      ∀ p, lo ≤ p → HeapAt less (siftDown_loop less hi first n root data) first hi p
  | 0, root, data, hlo, hb, hn, h1, h2 => by
    simp only [siftDown_loop]
    refine ⟨Shuffled.refl _ _ _, fun p hp => ?_⟩
    by_cases hpr : p = root
    · intro c hc hch; omega
    · exact h1 p hp hpr
  | n + 1, root, data, hlo, hb, hn, h1, h2 => by
    simp only [siftDown_loop]
    split
    · next hge =>
      refine ⟨Shuffled.refl _ _ _, fun p hp => ?_⟩
      by_cases hpr : p = root
      · intro c hc hch; omega
      · exact h1 p hp hpr
    · next hge =>
      have hchild : ∃ ch, (if 2 * root + 1 + 1 < hi &&
            Less less data (first + (2 * root + 1)) (first + (2 * root + 1) + 1) then
            2 * root + 1 + 1 else 2 * root + 1) = ch ∧
          (ch = 2 * root + 1 ∨ ch = 2 * root + 2) ∧ ch < hi ∧
          (∀ c, (c = 2 * root + 1 ∨ c = 2 * root + 2) → c < hi →
            Less less data (first + ch) (first + c) = false) := by
        refine ⟨_, rfl, ?_⟩
        split
        · next hc =>
          simp only [Bool.and_eq_true, decide_eq_true_eq] at hc
          refine ⟨Or.inr rfl, hc.1, fun c hc1 hc2 => ?_⟩
          rcases hc1 with e | e
          · subst e; exact Less_asymm sw data _ _ hc.2
          · subst e; exact Less_irrefl sw data _
        · next hc =>
          simp only [Bool.and_eq_true, decide_eq_true_eq, not_and, Bool.not_eq_true] at hc
          refine ⟨Or.inl rfl, by omega, fun c hc1 hc2 => ?_⟩
          rcases hc1 with e | e
          · subst e; exact Less_irrefl sw data _
          · subst e; exact hc hc2
      obtain ⟨ch, hch, hch1, hch2, hch3⟩ := hchild
      rw [hch]
      have hroot : first + root < data.length := by omega
      have hchl : first + ch < data.length := by omega
      split
      · next hnl =>
        simp only [Bool.not_eq_true', ] at hnl
        refine ⟨Shuffled.refl _ _ _, fun p hp => ?_⟩
        by_cases hpr : p = root
        · subst hpr
          intro c hc hcl
          exact Less_le_trans sw data hchl (hch3 c hc hcl) hnl
        · exact h1 p hp hpr
      · next hnl =>
        simp only [Bool.not_eq_true', Bool.not_eq_false] at hnl
        have hsw : Shuffled (first + lo) (first + hi) data
            (Swap data (first + root) (first + ch)) :=
          Shuffled.swap data (by omega) (by omega) (by omega) (by omega) hb
        have h1' : ∀ p, lo ≤ p → p ≠ ch →
            HeapAt less (Swap data (first + root) (first + ch)) first hi p := by
          intro p hp hpc c hc hcl
          rw [Less_Swap less data _ _ _ _ hroot hchl]
          by_cases hpr : p = root
          · subst hpr
            rw [swapIdx_left]
            by_cases hcc : c = ch
            · subst hcc; rw [swapIdx_right]; exact Less_asymm sw data _ _ hnl
            · rw [swapIdx_of_ne (by omega) (by omega)]; exact hch3 c hc hcl
          · rw [swapIdx_of_ne (k := first + p) (by omega) (by omega)]
            by_cases hcr : c = root
            · subst hcr
              rw [swapIdx_left]
              exact h2 p ch hp (by omega) hch1 hch2
            · rw [swapIdx_of_ne (by omega) (by omega)]
              exact h1 p hp hpr c hc hcl
        have h2' : ∀ q c, lo ≤ q → (ch = 2 * q + 1 ∨ ch = 2 * q + 2) →
            (c = 2 * ch + 1 ∨ c = 2 * ch + 2) → c < hi →
            Less less (Swap data (first + root) (first + ch)) (first + q) (first + c) = false := by
          intro q c hq hqc hc hcl
          have hqr : q = root := by omega
          subst hqr
          rw [Less_Swap less data _ _ _ _ hroot hchl, swapIdx_left,
            swapIdx_of_ne (by omega) (by omega)]
          exact h1 ch (by omega) (by omega) c hc hcl
        obtain ⟨r1, r2⟩ := siftDown_loop_spec sw lo hi first n ch _ (by omega)
          (by rw [length_Swap]; exact hb) (by omega) h1' h2'
        exact ⟨hsw.trans r1, r2⟩

theorem siftDown_func_spec {less : α → α → Bool} (sw : StrictWeakOrder less)
    (data : List α) (lo hi first : Nat) (hb : first + hi ≤ data.length)
    (h1 : ∀ p, lo < p → HeapAt less data first hi p) :
    Shuffled (first + lo) (first + hi) data (siftDown_func less data lo hi first) ∧
    ∀ p, lo ≤ p → HeapAt less (siftDown_func less data lo hi first) first hi p :=
  siftDown_loop_spec sw lo hi first hi lo data (Nat.le_refl _) hb (by omega)
    (fun p hp hne => h1 p (by omega)) (fun q c hq hr => by omega)

theorem heap_root_max {less : α → α → Bool} (sw : StrictWeakOrder less) (data : List α)
    (first hi : Nat) (hb : first + hi ≤ data.length)
    (h : ∀ p, HeapAt less data first hi p) :
    ∀ k, k < hi → Less less data first (first + k) = false := by
  intro k
  induction k using Nat.strong_induction_on with
  | _ k ih =>
    intro hk
    by_cases hk0 : k = 0
    · subst hk0; exact Less_irrefl sw data _
    · have h1 := h ((k - 1) / 2) k (by omega) hk
      have h2 := ih ((k - 1) / 2) (by omega) (by omega)
      exact Less_le_trans sw data (by omega) h1 h2

theorem heapSort_build_spec {less : α → α → Bool} (sw : StrictWeakOrder less) (hi first : Nat) :
    ∀ (i : Nat) (data : List α), first + hi ≤ data.length →
      (∀ p, i < p → HeapAt less data first hi p) →
      Shuffled first (first + hi) data (heapSort_build less hi first i data) ∧
      ∀ p, HeapAt less (heapSort_build less hi first i data) first hi p
  | 0, data, hb, h => by
    simp only [heapSort_build]
    obtain ⟨r1, r2⟩ := siftDown_func_spec sw data 0 hi first hb h
    exact ⟨r1, fun p => r2 p (Nat.zero_le _)⟩
  | i + 1, data, hb, h => by
    simp only [heapSort_build]
    obtain ⟨r1, r2⟩ := siftDown_func_spec sw data (i + 1) hi first hb h
    obtain ⟨s1, s2⟩ := heapSort_build_spec sw hi first i _ (by rw [r1.length_eq]; exact hb)
      (fun p hp => r2 p (by omega))
    exact ⟨(r1.mono (by omega) (Nat.le_refl _)).trans s1, s2⟩

theorem heapSort_pop_spec {less : α → α → Bool} (sw : StrictWeakOrder less) (hi first : Nat) :
    ∀ (i : Nat) (data : List α), i < hi → first + hi ≤ data.length →
      (∀ p, HeapAt less data first (i + 1) p) →
      SortedRange less data (first + i + 1) (first + hi) →
      (∀ k k', k ≤ i → i < k' → k' < hi → Less less data (first + k') (first + k) = false) →
      Shuffled first (first + hi) data (heapSort_pop less first i data) ∧
      SortedRange less (heapSort_pop less first i data) first (first + hi)
  | 0, data, hi0, hb, hheap, hsorted, hcross => by
    simp only [heapSort_pop, Swap_self, siftDown_func, siftDown_loop]
    refine ⟨Shuffled.refl _ _ _, fun p q h1 h2 h3 => ?_⟩
    by_cases hp : p = first
    · subst hp
      have := hcross 0 (q - p) (Nat.le_refl _) (by omega) (by omega)
      rwa [Nat.add_zero, Nat.add_sub_cancel' (by omega)] at this
    · exact hsorted p q (by omega) h2 h3
  | i + 1, data, hi0, hb, hheap, hsorted, hcross => by
    simp only [heapSort_pop]
    have hf : first < data.length := by omega
    have hl : first + (i + 1) < data.length := by omega
    have hmax := heap_root_max sw data first (i + 1 + 1) (by omega) hheap
    have hsw : Shuffled first (first + hi) data (Swap data first (first + (i + 1))) :=
      Shuffled.swap data (Nat.le_refl _) (by omega) (by omega) (by omega) hb
    have hb1 : first + hi ≤ (Swap data first (first + (i + 1))).length := by
      rw [length_Swap]; exact hb
    have hheap1 : ∀ p, 0 < p → HeapAt less (Swap data first (first + (i + 1))) first (i + 1) p := by
      intro p hp c hc hcl
      rw [Less_Swap less data _ _ _ _ hf hl, swapIdx_of_ne (by omega) (by omega),
        swapIdx_of_ne (by omega) (by omega)]
      exact hheap p c hc (by omega)
    obtain ⟨r1, r2⟩ := siftDown_func_spec sw (Swap data first (first + (i + 1))) 0 (i + 1) first
      (by omega) hheap1
    rw [Nat.add_zero] at r1
    have hsorted1 : SortedRange less (Swap data first (first + (i + 1))) (first + i + 1)
        (first + hi) := by
      intro p q h1 h2 h3
      rw [Less_Swap less data _ _ _ _ hf hl, swapIdx_of_ne (k := q) (by omega) (by omega)]
      by_cases hp : p = first + (i + 1)
      · subst hp
        rw [swapIdx_right]
        have := hcross 0 (q - first) (Nat.zero_le _) (by omega) (by omega)
        rwa [Nat.add_zero, Nat.add_sub_cancel' (by omega)] at this
      · rw [swapIdx_of_ne (by omega) hp]
        exact hsorted p q (by omega) h2 h3
    have hcross1 : ∀ k k', k ≤ i → i < k' → k' < hi →
        Less less (Swap data first (first + (i + 1))) (first + k') (first + k) = false := by
      intro k k' hk hk' hk'h
      rw [Less_Swap less data _ _ _ _ hf hl]
      by_cases hk1 : k' = i + 1
      · subst hk1
        rw [swapIdx_right]
        by_cases hk0 : k = 0
        · subst hk0
          rw [show first + 0 = first from rfl, swapIdx_left]
          exact hmax (i + 1) (by omega)
        · rw [swapIdx_of_ne (by omega) (by omega)]
          exact hmax k (by omega)
      · rw [swapIdx_of_ne (k := first + k') (by omega) (by omega)]
        by_cases hk0 : k = 0
        · subst hk0
          rw [show first + 0 = first from rfl, swapIdx_left]
          exact hcross (i + 1) k' (Nat.le_refl _) (by omega) hk'h
        · rw [swapIdx_of_ne (by omega) (by omega)]
          exact hcross k k' (by omega) (by omega) hk'h
    have hcross2 : ∀ k k', k ≤ i → i < k' → k' < hi →
        Less less (siftDown_func less (Swap data first (first + (i + 1))) 0 (i + 1) first)
          (first + k') (first + k) = false := by
      intro k k' hk hk' hk'h
      refine r1.range_le less (m := first + k') (Or.inr (by omega)) (fun x hx1 hx2 => ?_)
        (first + k) (by omega) (by omega)
      have := hcross1 (x - first) k' (by omega) hk' hk'h
      rwa [Nat.add_sub_cancel' (by omega)] at this
    obtain ⟨s1, s2⟩ := heapSort_pop_spec sw hi first i _ (by omega)
      (by rw [r1.length_eq]; exact hb1) (fun p => r2 p (Nat.zero_le _))
      (r1.sortedRange_outside less hsorted1 (Or.inr (by omega))) hcross2
    exact ⟨(hsw.trans (r1.mono (Nat.le_refl _) (by omega))).trans s1, s2⟩

theorem heapSort_func_spec {less : α → α → Bool} (sw : StrictWeakOrder less) (data : List α)
    (a b : Nat) (hb : b ≤ data.length) :
    Shuffled a b data (heapSort_func less data a b) ∧
    SortedRange less (heapSort_func less data a b) a b := by
  unfold heapSort_func
  simp only
  split
  · next h0 => exact ⟨Shuffled.refl _ _ _, fun p q h1 h2 h3 => by omega⟩
  · next h0 =>
    have e : a + (b - a) = b := by omega
    obtain ⟨r1, r2⟩ := heapSort_build_spec sw (b - a) a ((b - a - 1) / 2) data (by omega)
      (fun p hp c hc hcl => by omega)
    obtain ⟨s1, s2⟩ := heapSort_pop_spec sw (b - a) a (b - a - 1) _ (by omega)
      (by rw [r1.length_eq]; omega) (by rw [show b - a - 1 + 1 = b - a by omega]; exact r2)
      (fun p q h1 h2 h3 => by omega) (fun k k' h1 h2 h3 => by omega)
    rw [e] at r1 s1 s2
    exact ⟨r1.trans s1, s2⟩

theorem sorted_of_partition {less : α → α → Bool} (sw : StrictWeakOrder less) (data : List α)
    (a b mid : Nat) (hmb : mid < b) (hb : b ≤ data.length)
    (hl : SortedRange less data a mid) (hr : SortedRange less data (mid + 1) b)
    (hlo : ∀ k, a ≤ k → k < mid → Less less data mid k = false)
    (hhi : ∀ k, mid < k → k < b → Less less data k mid = false) :
    SortedRange less data a b := by
  intro p q h1 h2 h3
  by_cases hq : q < mid
  · exact hl p q h1 h2 hq
  · by_cases hp : mid < p
    · exact hr p q (by omega) h2 h3
    · by_cases hq' : q = mid
      · subst hq'; exact hlo p h1 (by omega)
      · by_cases hp' : p = mid
        · subst hp'; exact hhi q (by omega) h3
        · exact Less_le_trans sw data (show mid < data.length by omega)
            (hlo p h1 (by omega)) (hhi q (by omega) h3)

theorem LowerBound.of_outside (less : α → α → Bool) {a b c d : Nat} {xs ys : List α}
    (h : Shuffled c d xs ys) (hl : LowerBound less xs a b) (hd : b ≤ c ∨ (d < a ∨ d = 0)) :
    LowerBound less ys a b := by
  intro k ha h1 h2
  rw [h.Less_outside less (by omega) (by omega)]
  exact hl k ha h1 h2

theorem pdqsort_loop_spec {less : α → α → Bool} (sw : StrictWeakOrder less) :
    ∀ (fuel : Nat) (data : List α) (a b limit : Nat) (wasBalanced wasPartitioned : Bool),
      b - a < fuel → b ≤ data.length → LowerBound less data a b →
      Shuffled a b data (pdqsort_loop less fuel data a b limit wasBalanced wasPartitioned) ∧
      SortedRange less (pdqsort_loop less fuel data a b limit wasBalanced wasPartitioned) a b
  | 0, data, a, b, limit, wb, wp, hf, _, _ => by omega
  | fuel + 1, data, a, b, limit, wb, wp, hf, hb, hl => by
    simp only [pdqsort_loop]
    by_cases hins : b - a ≤ maxInsertion
    · rw [if_pos hins]; exact insertionSort_func_spec sw data a b hb
    rw [if_neg hins]
    by_cases hlim : limit = 0
    · rw [if_pos hlim]; exact heapSort_func_spec sw data a b hb
    rw [if_neg hlim]
    unfold maxInsertion at hins
    have hab : a < b := by omega
    -- breakPatterns
    have h1 : Shuffled a b data (if (!wb) = true then breakPatterns_func data a b else data) := by
      split
      · exact breakPatterns_func_spec data a b hb
      · exact Shuffled.refl _ _ _
    generalize (if (!wb) = true then breakPatterns_func data a b else data) = d1 at *
    generalize (if (!wb) = true then limit - 1 else limit) = limit1 at *
    have hb1 : b ≤ d1.length := by rw [h1.length_eq]; exact hb
    -- choosePivot
    have hp := choosePivot_func_bounds less d1 a b hab
    generalize choosePivot_func less d1 a b = ph at *
    have h2 : Shuffled a b d1 (if ph.2 = sortedHint.decreasingHint then reverseRange_func d1 a b
        else d1) := by
      split
      · exact reverseRange_func_spec d1 a b hab hb1
      · exact Shuffled.refl _ _ _
    have hpiv : a ≤ (if ph.2 = sortedHint.decreasingHint then b - 1 - (ph.1 - a) else ph.1) ∧
        (if ph.2 = sortedHint.decreasingHint then b - 1 - (ph.1 - a) else ph.1) < b := by
      split <;> omega
    generalize (if ph.2 = sortedHint.decreasingHint then reverseRange_func d1 a b else d1) = d2
      at *
    generalize (if ph.2 = sortedHint.decreasingHint then b - 1 - (ph.1 - a) else ph.1) = pivot
      at *
    generalize (if ph.2 = sortedHint.decreasingHint then sortedHint.increasingHint else ph.2) =
      hint at *
    have h12 := h1.trans h2
    have hb2 : b ≤ d2.length := by rw [h12.length_eq]; exact hb
    have hl2 := h12.lowerBound less hl
    -- partialInsertionSort
    have h3 : Shuffled a b d2 (if (wb && wp && decide (hint = sortedHint.increasingHint)) = true
          then partialInsertionSort_func less d2 a b else (d2, false)).1 ∧
        ((if (wb && wp && decide (hint = sortedHint.increasingHint)) = true
          then partialInsertionSort_func less d2 a b else (d2, false)).2 = true →
        SortedRange less (if (wb && wp && decide (hint = sortedHint.increasingHint)) = true
          then partialInsertionSort_func less d2 a b else (d2, false)).1 a b) := by
      split
      · exact partialInsertionSort_func_spec sw d2 a b hab hb2 hl2
      · exact ⟨Shuffled.refl _ _ _, fun h => Bool.noConfusion h⟩
    generalize (if (wb && wp && decide (hint = sortedHint.increasingHint)) = true
          then partialInsertionSort_func less d2 a b else (d2, false)) = pr at *
    obtain ⟨h3a, h3b⟩ := h3
    by_cases hdone : pr.2 = true
    · rw [if_pos hdone]; exact ⟨h12.trans h3a, h3b hdone⟩
    rw [if_neg hdone]
    have h13 := h12.trans h3a
    have hb3 : b ≤ pr.1.length := by rw [h13.length_eq]; exact hb
    have hl3 := h13.lowerBound less hl
    generalize pr.1 = d3 at *
    by_cases heq : (decide (a > 0) && !Less less d3 (a - 1) pivot) = true
    · -- partitionEqual
      rw [if_pos heq]
      simp only [Bool.and_eq_true, decide_eq_true_eq, Bool.not_eq_true'] at heq
      have hmin : ∀ k, a ≤ k → k < b → Less less d3 k pivot = false := fun k k1 k2 =>
        Less_le_trans sw d3 (show a - 1 < d3.length by omega) heq.2 (hl3 k heq.1 k1 k2)
      obtain ⟨e1, e2, e3, e4, e5⟩ := partitionEqual_func_spec sw d3 a b pivot hpiv.1 hpiv.2 hb3
        hmin
      generalize partitionEqual_func less d3 a b pivot = r at *
      have hb4 : b ≤ r.1.length := by rw [e1.length_eq]; exact hb3
      have ha4 : a < r.1.length := by omega
      have hl4 : LowerBound less r.1 r.2 b := fun k _ k1 k2 =>
        Less_le_trans sw r.1 ha4 (e4 (r.2 - 1) (by omega) (by omega)) (e5 k (by omega) k2)
      obtain ⟨i1, i2⟩ := pdqsort_loop_spec sw fuel r.1 r.2 b limit1 wb wp (by omega) hb4 hl4
      refine ⟨h13.trans (e1.trans (i1.mono (by omega) (Nat.le_refl _))), ?_⟩
      have hb5 : a < (pdqsort_loop less fuel r.1 r.2 b limit1 wb wp).length := by
        rw [i1.length_eq]; exact ha4
      have hA : ∀ k, a ≤ k → k < r.2 →
          Less less (pdqsort_loop less fuel r.1 r.2 b limit1 wb wp) a k = false := by
        intro k k1 k2
        rw [i1.Less_outside less (Or.inl (by omega)) (Or.inl k2)]
        exact e4 k k1 k2
      have hB : ∀ k, a ≤ k → k < b →
          Less less (pdqsort_loop less fuel r.1 r.2 b limit1 wb wp) k a = false := by
        intro k k1 k2
        by_cases hk : k < r.2
        · rw [i1.Less_outside less (Or.inl hk) (Or.inl (by omega))]
          exact e5 k k1 k2
        · exact i1.le_range less (Or.inl (by omega)) (fun x x1 x2 => e5 x (by omega) x2) k
            (by omega) k2
      intro p q p1 p2 p3
      by_cases hpm : p < r.2
      · exact Less_le_trans sw _ hb5 (hA p p1 hpm) (hB q (by omega) p3)
      · exact i2 p q (by omega) p2 p3
    · -- partition
      rw [if_neg heq]
      obtain ⟨e1, e2, e3, e4, e5⟩ := partition_func_spec sw d3 a b pivot hpiv.1 hpiv.2 hb3
      generalize partition_func less d3 a b pivot = r at *
      have h14 := h13.trans e1
      have hb4 : b ≤ r.1.length := by rw [e1.length_eq]; exact hb3
      have hl4 := h14.lowerBound less hl
      have hlL : LowerBound less r.1 a r.2.1 := fun k k0 k1 k2 => hl4 k k0 k1 (by omega)
      have hlR : LowerBound less r.1 (r.2.1 + 1) b := fun k _ k1 k2 => by
        simpa using e5 k (by omega) k2
      split
      · -- left part first
        obtain ⟨i1, i2⟩ := pdqsort_loop_spec sw fuel r.1 a r.2.1 limit1 true true (by omega)
          (by omega) hlL
        generalize pdqsort_loop less fuel r.1 a r.2.1 limit1 true true = o1 at *
        have hb5 : b ≤ o1.length := by rw [i1.length_eq]; exact hb4
        obtain ⟨j1, j2⟩ := pdqsort_loop_spec sw fuel o1 (r.2.1 + 1) b limit1
          (decide (r.2.1 - a ≥ (b - a) / 8)) r.2.2 (by omega) hb5
          (LowerBound.of_outside less i1 hlR (Or.inr (Or.inl (by omega))))
        generalize pdqsort_loop less fuel o1 (r.2.1 + 1) b limit1
          (decide (r.2.1 - a ≥ (b - a) / 8)) r.2.2 = o2 at *
        refine ⟨h14.trans ((i1.mono (Nat.le_refl _) (by omega)).trans
          (j1.mono (by omega) (Nat.le_refl _))), ?_⟩
        apply sorted_of_partition sw o2 a b r.2.1 e3
          (by rw [j1.length_eq]; exact hb5)
          (j1.sortedRange_outside less i2 (Or.inl (by omega))) j2
        · intro k k1 k2
          rw [j1.Less_outside less (Or.inl (by omega)) (Or.inl (by omega))]
          exact i1.range_le less (Or.inr (Nat.le_refl _)) e4 k k1 k2
        · intro k k1 k2
          refine j1.le_range less (Or.inl (by omega)) (fun x x1 x2 => ?_) k (by omega) k2
          rw [i1.Less_outside less (Or.inr (by omega)) (Or.inr (by omega))]
          exact e5 x (by omega) x2
      · -- right part first
        obtain ⟨i1, i2⟩ := pdqsort_loop_spec sw fuel r.1 (r.2.1 + 1) b limit1 true true
          (by omega) hb4 hlR
        generalize pdqsort_loop less fuel r.1 (r.2.1 + 1) b limit1 true true = o1 at *
        have hb5 : b ≤ o1.length := by rw [i1.length_eq]; exact hb4
        obtain ⟨j1, j2⟩ := pdqsort_loop_spec sw fuel o1 a r.2.1 limit1
          (decide (b - r.2.1 ≥ (b - a) / 8)) r.2.2 (by omega) (by omega)
          (LowerBound.of_outside less i1 hlL (Or.inl (by omega)))
        generalize pdqsort_loop less fuel o1 a r.2.1 limit1
          (decide (b - r.2.1 ≥ (b - a) / 8)) r.2.2 = o2 at *
        refine ⟨h14.trans ((i1.mono (by omega) (Nat.le_refl _)).trans
          (j1.mono (Nat.le_refl _) (by omega))), ?_⟩
        apply sorted_of_partition sw o2 a b r.2.1 e3
          (by rw [j1.length_eq]; exact hb5) j2
          (j1.sortedRange_outside less i2 (Or.inr (by omega)))
        · intro k k1 k2
          refine j1.range_le less (Or.inr (Nat.le_refl _)) (fun x x1 x2 => ?_) k k1 k2
          rw [i1.Less_outside less (Or.inl (by omega)) (Or.inl (by omega))]
          exact e4 x x1 x2
        · intro k k1 k2
          rw [j1.Less_outside less (Or.inr (by omega)) (Or.inr (by omega))]
          exact i1.le_range less (Or.inl (by omega)) (fun x x1 x2 => e5 x (by omega) x2) k
            (by omega) k2

theorem pdqsort_func_spec {less : α → α → Bool} (sw : StrictWeakOrder less) (data : List α)
    (b limit : Nat) (hb : b ≤ data.length) :
    Shuffled 0 b data (pdqsort_func less data 0 b limit) ∧
    SortedRange less (pdqsort_func less data 0 b limit) 0 b :=
  pdqsort_loop_spec sw _ data 0 b limit true true (by omega) hb (fun k h => by omega)

theorem Slice_perm {less : α → α → Bool} (sw : StrictWeakOrder less) (x : List α) :
    (Slice less x).Perm x :=
  (pdqsort_func_spec sw x x.length _ (Nat.le_refl _)).1.perm

theorem Slice_sorted {less : α → α → Bool} (sw : StrictWeakOrder less) (x : List α) :
    SortedRange less (Slice less x) 0 x.length :=
  (pdqsort_func_spec sw x x.length _ (Nat.le_refl _)).2

/-- The bound on the nesting of `pdqsort_loop` is never what stops it: any two bounds above the
length of the range give the same result. -/
theorem pdqsort_loop_fuel {less : α → α → Bool} (sw : StrictWeakOrder less) :
    ∀ (fuel fuel' : Nat) (data : List α) (a b limit : Nat) (wasBalanced wasPartitioned : Bool),
      b - a < fuel → b - a < fuel' → b ≤ data.length → LowerBound less data a b →
      pdqsort_loop less fuel data a b limit wasBalanced wasPartitioned =
        pdqsort_loop less fuel' data a b limit wasBalanced wasPartitioned
  | 0, _, data, a, b, limit, wb, wp, hf, _, _, _ => by omega
  | _ + 1, 0, data, a, b, limit, wb, wp, _, hf, _, _ => by omega
  | fuel + 1, fuel' + 1, data, a, b, limit, wb, wp, hf, hf', hb, hl => by
    simp only [pdqsort_loop]
    by_cases hins : b - a ≤ maxInsertion
    · rw [if_pos hins, if_pos hins]
    rw [if_neg hins, if_neg hins]
    by_cases hlim : limit = 0
    · rw [if_pos hlim, if_pos hlim]
    rw [if_neg hlim, if_neg hlim]
    unfold maxInsertion at hins
    have hab : a < b := by omega
    have h1 : Shuffled a b data (if (!wb) = true then breakPatterns_func data a b else data) := by
      split
      · exact breakPatterns_func_spec data a b hb
      · exact Shuffled.refl _ _ _
    generalize (if (!wb) = true then breakPatterns_func data a b else data) = d1 at *
    generalize (if (!wb) = true then limit - 1 else limit) = limit1 at *
    have hb1 : b ≤ d1.length := by rw [h1.length_eq]; exact hb
    have hp := choosePivot_func_bounds less d1 a b hab
    generalize choosePivot_func less d1 a b = ph at *
    have h2 : Shuffled a b d1 (if ph.2 = sortedHint.decreasingHint then reverseRange_func d1 a b
        else d1) := by
      split
      · exact reverseRange_func_spec d1 a b hab hb1
      · exact Shuffled.refl _ _ _
    have hpiv : a ≤ (if ph.2 = sortedHint.decreasingHint then b - 1 - (ph.1 - a) else ph.1) ∧
        (if ph.2 = sortedHint.decreasingHint then b - 1 - (ph.1 - a) else ph.1) < b := by
      split <;> omega
    generalize (if ph.2 = sortedHint.decreasingHint then reverseRange_func d1 a b else d1) = d2
      at *
    generalize (if ph.2 = sortedHint.decreasingHint then b - 1 - (ph.1 - a) else ph.1) = pivot
      at *
    generalize (if ph.2 = sortedHint.decreasingHint then sortedHint.increasingHint else ph.2) =
      hint at *
    have h12 := h1.trans h2
    have hb2 : b ≤ d2.length := by rw [h12.length_eq]; exact hb
    have hl2 := h12.lowerBound less hl
    have h3 : Shuffled a b d2 (if (wb && wp && decide (hint = sortedHint.increasingHint)) = true
          then partialInsertionSort_func less d2 a b else (d2, false)).1 := by
      split
      · exact (partialInsertionSort_func_spec sw d2 a b hab hb2 hl2).1
      · exact Shuffled.refl _ _ _
    generalize (if (wb && wp && decide (hint = sortedHint.increasingHint)) = true
          then partialInsertionSort_func less d2 a b else (d2, false)) = pr at *
    by_cases hdone : pr.2 = true
    · rw [if_pos hdone, if_pos hdone]
    rw [if_neg hdone, if_neg hdone]
    have h13 := h12.trans h3
    have hb3 : b ≤ pr.1.length := by rw [h13.length_eq]; exact hb
    have hl3 := h13.lowerBound less hl
    generalize pr.1 = d3 at *
    by_cases heq : (decide (a > 0) && !Less less d3 (a - 1) pivot) = true
    · rw [if_pos heq, if_pos heq]
      simp only [Bool.and_eq_true, decide_eq_true_eq, Bool.not_eq_true'] at heq
      have hmin : ∀ k, a ≤ k → k < b → Less less d3 k pivot = false := fun k k1 k2 =>
        Less_le_trans sw d3 (show a - 1 < d3.length by omega) heq.2 (hl3 k heq.1 k1 k2)
      obtain ⟨e1, e2, e3, e4, e5⟩ := partitionEqual_func_spec sw d3 a b pivot hpiv.1 hpiv.2 hb3
        hmin
      generalize partitionEqual_func less d3 a b pivot = r at *
      have hb4 : b ≤ r.1.length := by rw [e1.length_eq]; exact hb3
      have ha4 : a < r.1.length := by omega
      have hl4 : LowerBound less r.1 r.2 b := fun k _ k1 k2 =>
        Less_le_trans sw r.1 ha4 (e4 (r.2 - 1) (by omega) (by omega)) (e5 k (by omega) k2)
      exact pdqsort_loop_fuel sw fuel fuel' r.1 r.2 b limit1 wb wp (by omega) (by omega) hb4 hl4
    · rw [if_neg heq, if_neg heq]
      obtain ⟨e1, e2, e3, e4, e5⟩ := partition_func_spec sw d3 a b pivot hpiv.1 hpiv.2 hb3
      generalize partition_func less d3 a b pivot = r at *
      have h14 := h13.trans e1
      have hb4 : b ≤ r.1.length := by rw [e1.length_eq]; exact hb3
      have hl4 := h14.lowerBound less hl
      have hlL : LowerBound less r.1 a r.2.1 := fun k k0 k1 k2 => hl4 k k0 k1 (by omega)
      have hlR : LowerBound less r.1 (r.2.1 + 1) b := fun k _ k1 k2 => by
        simpa using e5 k (by omega) k2
      by_cases hlr : r.2.1 - a < b - r.2.1
      · rw [if_pos hlr, if_pos hlr]
        rw [pdqsort_loop_fuel sw fuel fuel' r.1 a r.2.1 limit1 true true (by omega) (by omega)
          (by omega) hlL]
        obtain ⟨i1, _⟩ := pdqsort_loop_spec sw fuel' r.1 a r.2.1 limit1 true true (by omega)
          (by omega) hlL
        exact pdqsort_loop_fuel sw fuel fuel' _ (r.2.1 + 1) b limit1 _ _ (by omega) (by omega)
          (by rw [i1.length_eq]; exact hb4)
          (LowerBound.of_outside less i1 hlR (Or.inr (Or.inl (by omega))))
      · rw [if_neg hlr, if_neg hlr]
        rw [pdqsort_loop_fuel sw fuel fuel' r.1 (r.2.1 + 1) b limit1 true true (by omega)
          (by omega) hb4 hlR]
        obtain ⟨i1, _⟩ := pdqsort_loop_spec sw fuel' r.1 (r.2.1 + 1) b limit1 true true
          (by omega) hb4 hlR
        exact pdqsort_loop_fuel sw fuel fuel' _ a r.2.1 limit1 _ _ (by omega) (by omega)
          (by rw [i1.length_eq]; omega)
          (LowerBound.of_outside less i1 hlL (Or.inl (by omega)))

/-- A recursive call of `pdqsort_func` inside the loop computes what `pdqsort_func` computes. -/
theorem pdqsort_loop_eq_func {less : α → α → Bool} (sw : StrictWeakOrder less) (fuel : Nat)
    (data : List α) (a b limit : Nat) (hf : b - a < fuel) (hb : b ≤ data.length)
    (hl : LowerBound less data a b) :
    pdqsort_loop less fuel data a b limit true true = pdqsort_func less data a b limit :=
  pdqsort_loop_fuel sw fuel (b - a + 1) data a b limit true true hf (by omega) hb hl

theorem Less_eq_true (less : α → α → Bool) (data : List α) (i j : Nat)
    (h : Less less data i j = true) :
    ∃ x y, data[i]? = some x ∧ data[j]? = some y ∧ less x y = true := by
  unfold Less at h
  cases hi : data[i]? <;> cases hj : data[j]? <;> simp_all

theorem Swap_cons_succ (h : α) (t : List α) (i j : Nat) :
    Swap (h :: t) (i + 1) (j + 1) = h :: Swap t i j := by
  unfold Swap
  simp only [List.getElem?_cons_succ]
  cases t[i]? <;> cases t[j]? <;> simp

theorem Swap_adjacent_filter (p : α → Bool) : ∀ (data : List α) (j : Nat) (x y : α),
    data[j + 1]? = some x → data[j]? = some y → ¬ (p x = true ∧ p y = true) →
    (Swap data (j + 1) j).filter p = data.filter p
  | [], _, _, _, hx, _, _ => by simp at hx
  | [_], 0, _, _, hx, _, _ => by simp at hx
  | h :: h2 :: t, 0, x, y, hx, hy, hp => by
    simp at hx hy
    subst hx; subst hy
    unfold Swap
    simp only [List.getElem?_cons_succ, List.getElem?_cons_zero, List.set_cons_succ,
      List.set_cons_zero, List.filter_cons]
    cases h1 : p h <;> cases h3 : p h2 <;> simp_all
  | h :: t, j + 1, x, y, hx, hy, hp => by
    simp only [List.getElem?_cons_succ] at hx hy
    rw [Swap_cons_succ, List.filter_cons, List.filter_cons,
      Swap_adjacent_filter p t j x y hx hy hp]

theorem insertionSort_inner_filter (less : α → α → Bool) (p : α → Bool)
    (hp : ∀ x y, less x y = true → ¬ (p x = true ∧ p y = true)) (a : Nat) :
    ∀ (j : Nat) (data : List α),
      (insertionSort_inner less a j data).filter p = data.filter p
  | 0, data => by simp only [insertionSort_inner]
  | j + 1, data => by
    simp only [insertionSort_inner]
    split
    · next hc =>
      simp only [Bool.and_eq_true, decide_eq_true_eq] at hc
      obtain ⟨x, y, hx, hy, hxy⟩ := Less_eq_true less data _ _ hc.2
      rw [insertionSort_inner_filter less p hp a j,
        Swap_adjacent_filter p data j x y hx hy (hp x y hxy)]
    · rfl

theorem insertionSort_outer_filter (less : α → α → Bool) (p : α → Bool)
    (hp : ∀ x y, less x y = true → ¬ (p x = true ∧ p y = true)) (a b : Nat) :
    ∀ (n i : Nat) (data : List α),
      (insertionSort_outer less a b n i data).filter p = data.filter p
  | 0, _, data => by simp only [insertionSort_outer]
  | n + 1, i, data => by
    simp only [insertionSort_outer]
    split
    · rw [insertionSort_outer_filter less p hp a b n, insertionSort_inner_filter less p hp]
    · rfl

theorem Slice_short (less : α → α → Bool) (x : List α) (h : x.length ≤ 12) :
    Slice less x = insertionSort_func less x 0 x.length := by
  unfold Slice pdqsort_func
  simp only [pdqsort_loop, Nat.sub_zero]
  rw [if_pos (by unfold maxInsertion; exact h)]

theorem Slice_filter_short (less : α → α → Bool) (p : α → Bool)
    (hp : ∀ x y, less x y = true → ¬ (p x = true ∧ p y = true)) (x : List α)
    (h : x.length ≤ 12) : (Slice less x).filter p = x.filter p := by
  rw [Slice_short less x h]
  exact insertionSort_outer_filter less p hp _ _ _ _ _

theorem SortedRange_chain (less : α → α → Bool) (R : α → α → Prop)
    (hR : ∀ x y, less y x = false → R x y) (data : List α)
    (hs : SortedRange less data 0 data.length) : List.Chain' R data := by
  rw [List.chain'_iff_get]
  intro i hi
  apply hR
  have h := hs i (i + 1) (Nat.zero_le _) (Nat.lt_succ_self _) (by omega)
  unfold Less at h
  rw [List.getElem?_eq_getElem (show i + 1 < data.length by omega),
    List.getElem?_eq_getElem (show i < data.length by omega)] at h
  simpa using h

end GoSort

/-! ## The claims -/

namespace Main

theorem cpuLess_strictWeakOrder : GoSort.StrictWeakOrder cpuLess := by
  constructor
  · intro x y h
    unfold cpuLess at *
    simp only [gt_iff_lt, decide_eq_true_eq, decide_eq_false_iff_not, not_lt] at *
    exact le_of_lt h
  · intro x y z h1 h2
    unfold cpuLess at *
    simp only [gt_iff_lt, decide_eq_false_iff_not, not_lt] at *
    exact le_trans h2 h1

theorem foldl_append_rows (procs : List Process) : ∀ (acc : List ProcessInfo),
    procs.foldl (fun result p => result ++ [newProcessInfo p]) acc =
      acc ++ procs.map newProcessInfo := by
  induction procs with
  | nil => intro acc; simp
  | cons p ps ih => intro acc; simp [List.foldl_cons, ih]

theorem getProcesses_ok (procs : List Process) :
    getProcesses (.ok procs) = (GoSort.Slice cpuLess (procs.map newProcessInfo), none) := by
  simp [getProcesses, foldl_append_rows]

/-- C1. For every enumerated list of processes, whatever the CPU values read, the list returned
by `getProcesses` is in descending order of CPU percent: every adjacent pair `(i, i+1)` of the
result has `CPUPercent[i] >= CPUPercent[i+1]`. -/
theorem getProcesses_sorted_desc (procs : List Process) :
    List.Chain' (fun x y => x.CPUPercent ≥ y.CPUPercent) (getProcesses (.ok procs)).1 := by
  rw [getProcesses_ok]
  apply GoSort.SortedRange_chain cpuLess
  · intro x y h
    unfold cpuLess at h
    simpa using h
  · have h := GoSort.Slice_sorted cpuLess_strictWeakOrder (procs.map newProcessInfo)
    rwa [← (GoSort.Slice_perm cpuLess_strictWeakOrder (procs.map newProcessInfo)).length_eq] at h

theorem cpuLess_filter (c : ℚ) (x y : ProcessInfo) (h : cpuLess x y = true) :
    ¬ ((fun z : ProcessInfo => decide (z.CPUPercent = c)) x = true ∧
      (fun z : ProcessInfo => decide (z.CPUPercent = c)) y = true) := by
  unfold cpuLess at h
  simp only [gt_iff_lt, decide_eq_true_eq] at *
  rintro ⟨h1, h2⟩
  rw [h1, h2] at h
  exact lt_irrefl _ h

theorem stable_short (procs : List Process) (h : procs.length ≤ 12) :
    StableByCPU (procs.map newProcessInfo) (getProcesses (.ok procs)).1 := by
  intro x _
  rw [getProcesses_ok]
  exact GoSort.Slice_filter_short cpuLess _ (cpuLess_filter x.CPUPercent) _ (by simpa using h)

/-- C2, counterexample. The sort of `getProcesses` is not stable: of thirteen enumerated
processes, pids 1 to 13, all at 0 percent except pid 7, the idle ones come back in the order
4, 3, 1, 5, 6, 2, 8, ... and not in enumeration order. -/
theorem getProcesses_not_stable :
    (getProcesses (.ok thirteenProcesses)).1.map (fun x => x.PID) =
      [7, 4, 3, 1, 5, 6, 2, 8, 9, 10, 11, 12, 13] ∧
    ¬ StableByCPU (thirteenProcesses.map newProcessInfo)
      (getProcesses (.ok thirteenProcesses)).1 := by
  refine ⟨by decide, ?_⟩
  unfold StableByCPU
  decide

/-- C2, amended. For an enumeration of at most 12 processes the sort of `getProcesses` is stable:
processes with equal CPU percent are returned in their enumeration order. -/
theorem getProcesses_stable_upto12 (procs : List Process) (h : procs.length ≤ 12) :
    StableByCPU (procs.map newProcessInfo) (getProcesses (.ok procs)).1 :=
  stable_short procs h

/-- Witness of `getProcesses_stable_upto12` on the three-process scenario. -/
theorem getProcesses_stable_upto12_witness :
    (threeProcesses (some "a") (some "b") none (some 1) none (some 3)).length ≤ 12 ∧
    StableByCPU ((threeProcesses (some "a") (some "b") none (some 1) none (some 3)).map
        newProcessInfo)
      (getProcesses (.ok (threeProcesses (some "a") (some "b") none (some 1) none (some 3)))).1 :=
  ⟨by decide, getProcesses_stable_upto12 _ (by decide)⟩

/-- C3, counterexample. For the enumeration with CPU percents 2.0, 5.0, 5.0 and pids 10, 20, 5
the pids are not returned in the order 5, 20, 10. -/
theorem getProcesses_scenario_not_pid_order :
    (getProcesses (.ok (threeProcesses none none none none none none))).1.map (fun x => x.PID) ≠
      [5, 20, 10] := by
  decide

/-- C3, amended. For the enumeration with CPU percents 2.0, 5.0, 5.0 and pids 10, 20, 5, whatever
the names and memory percents, `getProcesses` returns pid 20 (5.0), pid 5 (5.0), pid 10 (2.0);
in general, for at most 12 processes, processes with equal CPU percent appear in enumeration
order (there is no ordering by pid). -/
theorem getProcesses_scenario (n1 n2 n3 : Option String) (m1 m2 m3 : Option ℚ) :
    (getProcesses (.ok (threeProcesses n1 n2 n3 m1 m2 m3))).1 =
      [{ PID := 20, Name := n2.getD "", CPUPercent := 5, MemoryPercent := m2.getD 0 },
       { PID := 5, Name := n3.getD "", CPUPercent := 5, MemoryPercent := m3.getD 0 },
       { PID := 10, Name := n1.getD "", CPUPercent := 2, MemoryPercent := m1.getD 0 }] ∧
    ∀ procs : List Process, procs.length ≤ 12 →
      StableByCPU (procs.map newProcessInfo) (getProcesses (.ok procs)).1 :=
  ⟨by rfl, stable_short⟩

/-- Witness of `getProcesses_scenario`: two idle processes keep their enumeration order. -/
theorem getProcesses_scenario_witness :
    twoIdleProcesses.length ≤ 12 ∧
    StableByCPU (twoIdleProcesses.map newProcessInfo) (getProcesses (.ok twoIdleProcesses)).1 :=
  ⟨by decide, (getProcesses_scenario none none none none none none).2 twoIdleProcesses
    (by decide)⟩

theorem excessBits_le : ∀ (n x : Nat), excessBits n x = 0 ∨ 2 ^ (52 + excessBits n x) ≤ x
  | 0, _ => Or.inl rfl
  | n + 1, x => by
    simp only [excessBits]
    split
    · exact Or.inl rfl
    · next hx =>
      right
      rcases excessBits_le n (x / 2) with h | h
      · rw [h]
        exact Nat.le_of_not_lt hx
      · have h2 : 2 ^ (52 + (excessBits n (x / 2) + 1)) = 2 * 2 ^ (52 + excessBits n (x / 2)) := by
          rw [← Nat.add_assoc, Nat.pow_succ']
        rw [h2]
        omega

theorem excessBits_pos (x : Nat) (hx : 2 ^ 53 ≤ x) :
    1 ≤ excessBits x x ∧ 2 ^ (52 + excessBits x x) ≤ x := by
  have h1 : 1 ≤ excessBits x x := by
    cases x with
    | zero => exact absurd hx (by norm_num)
    | succ n =>
      simp only [excessBits]
      rw [if_neg (Nat.not_lt.2 hx)]
      omega
  rcases excessBits_le x x with h | h
  · omega
  · exact ⟨h1, h⟩

theorem roundUint64_exact (x : Nat) (h : x < 2 ^ 53) : roundUint64 x = x := by
  unfold roundUint64; rw [if_pos h]

theorem roundUint64_close (x : Nat) :
    (roundUint64 x - x) * 2 ^ 53 ≤ x ∧ (x - roundUint64 x) * 2 ^ 53 ≤ x := by
  unfold roundUint64
  split
  · simp
  · next hx =>
    obtain ⟨he1, hpow⟩ := excessBits_pos x (Nat.le_of_not_lt hx)
    simp only
    generalize excessBits x x = e at *
    have hsplit : 2 ^ e = 2 * 2 ^ (e - 1) := by
      rw [← Nat.pow_succ']; congr 1; omega
    have hhalf : 2 ^ (e - 1) * 2 ^ 53 ≤ x := by
      rw [← Nat.pow_add]
      have : e - 1 + 53 = 52 + e := by omega
      rw [this]; exact hpow
    have hdm : 2 ^ e * (x / 2 ^ e) + x % 2 ^ e = x := Nat.div_add_mod x (2 ^ e)
    have hmod : x % 2 ^ e < 2 ^ e := Nat.mod_lt _ (Nat.pos_pow_of_pos _ (by norm_num))
    have hmul : (x / 2 ^ e + 1) * 2 ^ e = 2 ^ e * (x / 2 ^ e) + 2 ^ e := by ring
    have hmul' : x / 2 ^ e * 2 ^ e = 2 ^ e * (x / 2 ^ e) := by ring
    generalize 2 ^ e * (x / 2 ^ e) = X at *
    generalize x % 2 ^ e = r at *
    generalize 2 ^ (e - 1) = H at *
    generalize 2 ^ e = P at *
    split
    · next hc =>
      rw [hmul]
      have hd : X + P - x ≤ H := by omega
      have hz : x - (X + P) = 0 := by omega
      rw [hz]
      exact ⟨Nat.le_trans (Nat.mul_le_mul_right _ hd) hhalf, by simp⟩
    · next hc =>
      rw [hmul']
      have hd : x - X ≤ H := by omega
      have hz : X - x = 0 := by omega
      rw [hz]
      exact ⟨by simp, Nat.le_trans (Nat.mul_le_mul_right _ hd) hhalf⟩

theorem float64_exact (x : Nat) (h : x < 2 ^ 53) : float64 x = (x : ℚ) := by
  unfold float64; rw [roundUint64_exact x h]

theorem float64_close (x : Nat) : |float64 x - (x : ℚ)| ≤ (x : ℚ) / 2 ^ 53 := by
  unfold float64
  obtain ⟨h1, h2⟩ := roundUint64_close x
  rw [le_div_iff₀ (by positivity)]
  rcases Nat.le_total (roundUint64 x) x with h | h
  · rw [abs_of_nonpos (by simpa using (Nat.cast_le (α := ℚ)).2 h)]
    have : ((x - roundUint64 x : Nat) : ℚ) * 2 ^ 53 ≤ x := by exact_mod_cast h2
    rw [Nat.cast_sub h] at this
    linarith
  · rw [abs_of_nonneg (by simpa using (Nat.cast_le (α := ℚ)).2 h)]
    have : ((roundUint64 x - x : Nat) : ℚ) * 2 ^ 53 ≤ x := by exact_mod_cast h1
    rw [Nat.cast_sub h] at this
    linarith

theorem float64_div_close (x : Nat) (k : ℚ) (hk : 0 < k) :
    |float64 x / k - (x : ℚ) / k| ≤ (x : ℚ) / k / 2 ^ 53 := by
  rw [← sub_div, abs_div, abs_of_pos hk, div_right_comm]
  exact div_le_div_of_nonneg_right (float64_close x) (le_of_lt hk)

/-- The snapshot returned by `getSystemStats`, field by field. -/
theorem getSystemStats_eq (os : OS) : ∃ s, getSystemStats os = .ok (s, none) ∧
    s.CPUUsage = (match os.cpuPercent with
      | .ok (v :: _) => v
      | _ => 0) ∧
    s.MemoryTotal = (match os.virtualMemory with
      | .ok vmem => float64 vmem.Total / (1024 * 1024 * 1024)
      | .error _ => 0) ∧
    s.MemoryUsed = (match os.virtualMemory with
      | .ok vmem => float64 vmem.Used / (1024 * 1024 * 1024)
      | .error _ => 0) ∧
    s.MemoryUsage = (match os.virtualMemory with
      | .ok vmem => vmem.UsedPercent
      | .error _ => 0) ∧
    s.DiskTotal = (match os.diskUsage with
      | .ok du => float64 du.Total / (1024 * 1024 * 1024)
      | .error _ => 0) ∧
    s.DiskUsed = (match os.diskUsage with
      | .ok du => float64 du.Used / (1024 * 1024 * 1024)
      | .error _ => 0) ∧
    s.DiskUsage = (match os.diskUsage with
      | .ok du => du.UsedPercent
      | .error _ => 0) ∧
    s.NetSent = (match os.ioCounters with
      | .ok (c :: _) => float64 c.BytesSent / (1024 * 1024)
      | _ => 0) ∧
    s.NetRecv = (match os.ioCounters with
      | .ok (c :: _) => float64 c.BytesRecv / (1024 * 1024)
      | _ => 0) ∧
    s.Processes = (match (getProcesses os.processes).2 with
      | none => (getProcesses os.processes).1
      | some _ => []) := by
  obtain ⟨cpu, vm, du, net, procs⟩ := os
  rcases cpu with _ | (_ | ⟨v, vs⟩) <;> rcases vm with _ | vm <;> rcases du with _ | du <;>
    rcases net with _ | (_ | ⟨c, cs⟩) <;> rcases procs with e | procs <;>
    simp [getSystemStats, index, SystemStats.zero, getProcesses, bind, Except.bind, pure,
      Except.pure]

/-- C4. Whatever the outcome of the CPU, memory, disk and network queries, when the process
enumeration fails `getSystemStats` still returns a snapshot and a nil error; its `Processes` is
empty and its nine scalar fields are the ones it returns when the enumeration succeeds. -/
theorem getSystemStats_enumeration_failure (os : OS) (e : Error) (procs : List Process) :
    ∃ s s', getSystemStats { os with processes := .error e } = .ok (s, none) ∧
      getSystemStats { os with processes := .ok procs } = .ok (s', none) ∧
      s.Processes = [] ∧
      s.CPUUsage = s'.CPUUsage ∧ s.MemoryTotal = s'.MemoryTotal ∧
      s.MemoryUsed = s'.MemoryUsed ∧ s.MemoryUsage = s'.MemoryUsage ∧
      s.DiskTotal = s'.DiskTotal ∧ s.DiskUsed = s'.DiskUsed ∧ s.DiskUsage = s'.DiskUsage ∧
      s.NetSent = s'.NetSent ∧ s.NetRecv = s'.NetRecv := by
  obtain ⟨s, hs, h1, h2, h3, h4, h5, h6, h7, h8, h9, h10⟩ :=
    getSystemStats_eq { os with processes := .error e }
  obtain ⟨s', hs', k1, k2, k3, k4, k5, k6, k7, k8, k9, _⟩ :=
    getSystemStats_eq { os with processes := .ok procs }
  refine ⟨s, s', hs, hs', ?_, ?_, ?_, ?_, ?_, ?_, ?_, ?_, ?_, ?_⟩
  · rw [h10]; rfl
  · rw [h1, k1]
  · rw [h2, k2]
  · rw [h3, k3]
  · rw [h4, k4]
  · rw [h5, k5]
  · rw [h6, k6]
  · rw [h7, k7]
  · rw [h8, k8]
  · rw [h9, k9]

/-- C5. In `getSystemStats` the fields of each of the CPU, memory, disk and network subsystems
depend on that subsystem's query only: when the query of one subsystem fails, its fields are 0,
and all the other fields, the process list included, are the ones returned when that query
succeeds (whatever it returns, and whatever the other queries do). -/
theorem getSystemStats_independence (os : OS) (e : Error) :
    (∀ v : List ℚ, ∃ s s', getSystemStats { os with cpuPercent := .error e } = .ok (s, none) ∧
      getSystemStats { os with cpuPercent := .ok v } = .ok (s', none) ∧
      s.CPUUsage = 0 ∧
      s.MemoryTotal = s'.MemoryTotal ∧ s.MemoryUsed = s'.MemoryUsed ∧
      s.MemoryUsage = s'.MemoryUsage ∧ s.DiskTotal = s'.DiskTotal ∧
      s.DiskUsed = s'.DiskUsed ∧ s.DiskUsage = s'.DiskUsage ∧ s.NetSent = s'.NetSent ∧
      s.NetRecv = s'.NetRecv ∧ s.Processes = s'.Processes) ∧
    (∀ v : VirtualMemoryStat, ∃ s s',
      getSystemStats { os with virtualMemory := .error e } = .ok (s, none) ∧
      getSystemStats { os with virtualMemory := .ok v } = .ok (s', none) ∧
      s.MemoryTotal = 0 ∧ s.MemoryUsed = 0 ∧ s.MemoryUsage = 0 ∧
      s.CPUUsage = s'.CPUUsage ∧ s.DiskTotal = s'.DiskTotal ∧
      s.DiskUsed = s'.DiskUsed ∧ s.DiskUsage = s'.DiskUsage ∧ s.NetSent = s'.NetSent ∧
      s.NetRecv = s'.NetRecv ∧ s.Processes = s'.Processes) ∧
    (∀ v : UsageStat, ∃ s s', getSystemStats { os with diskUsage := .error e } = .ok (s, none) ∧
      getSystemStats { os with diskUsage := .ok v } = .ok (s', none) ∧
      s.DiskTotal = 0 ∧ s.DiskUsed = 0 ∧ s.DiskUsage = 0 ∧
      s.CPUUsage = s'.CPUUsage ∧ s.MemoryTotal = s'.MemoryTotal ∧
      s.MemoryUsed = s'.MemoryUsed ∧ s.MemoryUsage = s'.MemoryUsage ∧
      s.NetSent = s'.NetSent ∧ s.NetRecv = s'.NetRecv ∧ s.Processes = s'.Processes) ∧
    (∀ v : List IOCountersStat, ∃ s s',
      getSystemStats { os with ioCounters := .error e } = .ok (s, none) ∧
      getSystemStats { os with ioCounters := .ok v } = .ok (s', none) ∧
      s.NetSent = 0 ∧ s.NetRecv = 0 ∧
      s.CPUUsage = s'.CPUUsage ∧ s.MemoryTotal = s'.MemoryTotal ∧
      s.MemoryUsed = s'.MemoryUsed ∧ s.MemoryUsage = s'.MemoryUsage ∧
      s.DiskTotal = s'.DiskTotal ∧ s.DiskUsed = s'.DiskUsed ∧ s.DiskUsage = s'.DiskUsage ∧
      s.Processes = s'.Processes) := by
  refine ⟨fun v => ?_, fun v => ?_, fun v => ?_, fun v => ?_⟩
  · obtain ⟨s, hs, h1, h2, h3, h4, h5, h6, h7, h8, h9, h10⟩ :=
      getSystemStats_eq { os with cpuPercent := .error e }
    obtain ⟨s', hs', k1, k2, k3, k4, k5, k6, k7, k8, k9, k10⟩ :=
      getSystemStats_eq { os with cpuPercent := .ok v }
    exact ⟨s, s', hs, hs', h1, by rw [h2, k2], by rw [h3, k3], by rw [h4, k4], by rw [h5, k5],
      by rw [h6, k6], by rw [h7, k7], by rw [h8, k8], by rw [h9, k9], by rw [h10, k10]⟩
  · obtain ⟨s, hs, h1, h2, h3, h4, h5, h6, h7, h8, h9, h10⟩ :=
      getSystemStats_eq { os with virtualMemory := .error e }
    obtain ⟨s', hs', k1, k2, k3, k4, k5, k6, k7, k8, k9, k10⟩ :=
      getSystemStats_eq { os with virtualMemory := .ok v }
    exact ⟨s, s', hs, hs', h2, h3, h4, by rw [h1, k1], by rw [h5, k5],
      by rw [h6, k6], by rw [h7, k7], by rw [h8, k8], by rw [h9, k9], by rw [h10, k10]⟩
  · obtain ⟨s, hs, h1, h2, h3, h4, h5, h6, h7, h8, h9, h10⟩ :=
      getSystemStats_eq { os with diskUsage := .error e }
    obtain ⟨s', hs', k1, k2, k3, k4, k5, k6, k7, k8, k9, k10⟩ :=
      getSystemStats_eq { os with diskUsage := .ok v }
    exact ⟨s, s', hs, hs', h5, h6, h7, by rw [h1, k1], by rw [h2, k2], by rw [h3, k3],
      by rw [h4, k4], by rw [h8, k8], by rw [h9, k9], by rw [h10, k10]⟩
  · obtain ⟨s, hs, h1, h2, h3, h4, h5, h6, h7, h8, h9, h10⟩ :=
      getSystemStats_eq { os with ioCounters := .error e }
    obtain ⟨s', hs', k1, k2, k3, k4, k5, k6, k7, k8, k9, k10⟩ :=
      getSystemStats_eq { os with ioCounters := .ok v }
    exact ⟨s, s', hs, hs', h8, h9, by rw [h1, k1], by rw [h2, k2], by rw [h3, k3],
      by rw [h4, k4], by rw [h5, k5], by rw [h6, k6], by rw [h7, k7], by rw [h10, k10]⟩

/-- C6. `getSystemStats` never fails: for every outcome of the five queries, a successful CPU or
network query that returns an empty list included, it returns a snapshot and a nil error without
indexing out of range, and `statsHandler` answers with the snapshot, not with a server error. -/
theorem getSystemStats_total (os : OS) :
    (∃ s, getSystemStats os = .ok (s, none)) ∧
    (∃ s, statsHandler os = .ok (Response.JSON s)) ∧
    (∃ s, getSystemStats { os with cpuPercent := .ok [], ioCounters := .ok [] } = .ok (s, none) ∧
      s.CPUUsage = 0 ∧ s.NetSent = 0 ∧ s.NetRecv = 0) := by
  obtain ⟨s, hs, _⟩ := getSystemStats_eq os
  obtain ⟨s', hs', h1, _, _, _, _, _, _, h8, h9, _⟩ :=
    getSystemStats_eq { os with cpuPercent := .ok [], ioCounters := .ok [] }
  refine ⟨⟨s, hs⟩, ⟨s, ?_⟩, ⟨s', hs', h1, h8, h9⟩⟩
  simp [statsHandler, hs, bind, Except.bind, pure, Except.pure]

/-- C7, counterexample. A memory total of 2^53 + 1 bytes is not reported as (2^53 + 1) / 1024^3:
the count is rounded to a `float64` first, and 8388608 is reported. -/
theorem getSystemStats_units_rounding :
    ∃ s, getSystemStats { quietOS with virtualMemory := .ok largeMemory } = .ok (s, none) ∧
      s.MemoryTotal = 8388608 ∧ s.MemoryTotal ≠ (largeMemory.Total : ℚ) / 1024 ^ 3 := by
  obtain ⟨s, hs, _, h2, _⟩ := getSystemStats_eq { quietOS with virtualMemory := .ok largeMemory }
  have hr : roundUint64 9007199254740993 = 9007199254740992 := by decide
  have h8 : s.MemoryTotal = 8388608 := by
    rw [h2]
    simp only [largeMemory, float64, hr]
    norm_num
  refine ⟨s, hs, h8, ?_⟩
  rw [h8]
  simp only [largeMemory]
  norm_num

/-- C7, amended. For every successful memory or disk query with byte counts `Total` and `Used`,
`getSystemStats` reports `float64(Total) / 1024^3` and `float64(Used) / 1024^3` and passes the
used percent through; for every successful network query it reports the `float64` of the byte
counters of the first entry divided by `1024^2`. The conversion is exact for a count below 2^53,
where the value reported is the count divided by `1024^3` (or `1024^2`), and otherwise within a
relative error of 2^-53 of it; in particular 17179869184 bytes of which 8589934592 used, at 50
percent, give 16, 8 and 50. -/
theorem getSystemStats_units (os : OS) :
    (∀ vmem : VirtualMemoryStat, ∃ s,
      getSystemStats { os with virtualMemory := .ok vmem } = .ok (s, none) ∧
      s.MemoryTotal = float64 vmem.Total / 1024 ^ 3 ∧
      s.MemoryUsed = float64 vmem.Used / 1024 ^ 3 ∧
      s.MemoryUsage = vmem.UsedPercent ∧
      (vmem.Total < 2 ^ 53 → s.MemoryTotal = (vmem.Total : ℚ) / 1024 ^ 3) ∧
      (vmem.Used < 2 ^ 53 → s.MemoryUsed = (vmem.Used : ℚ) / 1024 ^ 3) ∧
      |s.MemoryTotal - (vmem.Total : ℚ) / 1024 ^ 3| ≤ (vmem.Total : ℚ) / 1024 ^ 3 / 2 ^ 53 ∧
      |s.MemoryUsed - (vmem.Used : ℚ) / 1024 ^ 3| ≤ (vmem.Used : ℚ) / 1024 ^ 3 / 2 ^ 53) ∧
    (∀ du : UsageStat, ∃ s, getSystemStats { os with diskUsage := .ok du } = .ok (s, none) ∧
      s.DiskTotal = float64 du.Total / 1024 ^ 3 ∧
      s.DiskUsed = float64 du.Used / 1024 ^ 3 ∧
      s.DiskUsage = du.UsedPercent ∧
      (du.Total < 2 ^ 53 → s.DiskTotal = (du.Total : ℚ) / 1024 ^ 3) ∧
      (du.Used < 2 ^ 53 → s.DiskUsed = (du.Used : ℚ) / 1024 ^ 3) ∧
      |s.DiskTotal - (du.Total : ℚ) / 1024 ^ 3| ≤ (du.Total : ℚ) / 1024 ^ 3 / 2 ^ 53 ∧
      |s.DiskUsed - (du.Used : ℚ) / 1024 ^ 3| ≤ (du.Used : ℚ) / 1024 ^ 3 / 2 ^ 53) ∧
    (∀ (c : IOCountersStat) (rest : List IOCountersStat), ∃ s,
      getSystemStats { os with ioCounters := .ok (c :: rest) } = .ok (s, none) ∧
      s.NetSent = float64 c.BytesSent / 1024 ^ 2 ∧
      s.NetRecv = float64 c.BytesRecv / 1024 ^ 2 ∧
      (c.BytesSent < 2 ^ 53 → s.NetSent = (c.BytesSent : ℚ) / 1024 ^ 2) ∧
      (c.BytesRecv < 2 ^ 53 → s.NetRecv = (c.BytesRecv : ℚ) / 1024 ^ 2) ∧
      |s.NetSent - (c.BytesSent : ℚ) / 1024 ^ 2| ≤ (c.BytesSent : ℚ) / 1024 ^ 2 / 2 ^ 53 ∧
      |s.NetRecv - (c.BytesRecv : ℚ) / 1024 ^ 2| ≤ (c.BytesRecv : ℚ) / 1024 ^ 2 / 2 ^ 53) ∧
    (∃ s, getSystemStats { os with virtualMemory := .ok scenarioMemory } = .ok (s, none) ∧
      s.MemoryTotal = 16 ∧ s.MemoryUsed = 8 ∧ s.MemoryUsage = 50) := by
  have e3 : (1024 * 1024 * 1024 : ℚ) = 1024 ^ 3 := by norm_num
  have e2 : (1024 * 1024 : ℚ) = 1024 ^ 2 := by norm_num
  refine ⟨fun vmem => ?_, fun du => ?_, fun c rest => ?_, ?_⟩
  · obtain ⟨s, hs, _, h2, h3, h4, _⟩ := getSystemStats_eq { os with virtualMemory := .ok vmem }
    simp only [e3] at h2 h3
    refine ⟨s, hs, h2, h3, h4, fun h => ?_, fun h => ?_, ?_, ?_⟩
    · rw [h2, float64_exact _ h]
    · rw [h3, float64_exact _ h]
    · rw [h2]; exact float64_div_close _ _ (by norm_num)
    · rw [h3]; exact float64_div_close _ _ (by norm_num)
  · obtain ⟨s, hs, _, _, _, _, h5, h6, h7, _⟩ := getSystemStats_eq { os with diskUsage := .ok du }
    simp only [e3] at h5 h6
    refine ⟨s, hs, h5, h6, h7, fun h => ?_, fun h => ?_, ?_, ?_⟩
    · rw [h5, float64_exact _ h]
    · rw [h6, float64_exact _ h]
    · rw [h5]; exact float64_div_close _ _ (by norm_num)
    · rw [h6]; exact float64_div_close _ _ (by norm_num)
  · obtain ⟨s, hs, _, _, _, _, _, _, _, h8, h9, _⟩ :=
      getSystemStats_eq { os with ioCounters := .ok (c :: rest) }
    simp only [e2] at h8 h9
    refine ⟨s, hs, h8, h9, fun h => ?_, fun h => ?_, ?_, ?_⟩
    · rw [h8, float64_exact _ h]
    · rw [h9, float64_exact _ h]
    · rw [h8]; exact float64_div_close _ _ (by norm_num)
    · rw [h9]; exact float64_div_close _ _ (by norm_num)
  · obtain ⟨s, hs, _, h2, h3, h4, _⟩ :=
      getSystemStats_eq { os with virtualMemory := .ok scenarioMemory }
    refine ⟨s, hs, ?_, ?_, h4⟩
    · rw [h2]
      simp only [scenarioMemory]
      rw [float64_exact _ (by norm_num)]
      norm_num
    · rw [h3]
      simp only [scenarioMemory]
      rw [float64_exact _ (by norm_num)]
      norm_num

/-- Witness of `getSystemStats_units`: the memory scenario, whose byte counts are below 2^53. -/
theorem getSystemStats_units_witness :
    scenarioMemory.Total < 2 ^ 53 ∧ scenarioMemory.Used < 2 ^ 53 ∧
    ∃ s, getSystemStats { quietOS with virtualMemory := .ok scenarioMemory } = .ok (s, none) ∧
      s.MemoryTotal = (scenarioMemory.Total : ℚ) / 1024 ^ 3 ∧
      s.MemoryUsed = (scenarioMemory.Used : ℚ) / 1024 ^ 3 := by
  obtain ⟨s, hs, _, _, _, h5, h6, _⟩ := (getSystemStats_units quietOS).1 scenarioMemory
  exact ⟨by decide, by decide, s, hs, h5 (by decide), h6 (by decide)⟩

/-- C8. For every POST request to `killHandler`: a pid form value that is not a valid integer
gives 400 and no call on the process table; otherwise a failed lookup gives 404 and no kill;
otherwise a failed kill gives 500; otherwise the answer is a 303 redirect to "/". -/
theorem killHandler_post (t : ProcessTable) (pidStr : String) :
    (∀ e, Atoi pidStr = .error e →
      (∃ msg, (killHandler t ⟨MethodPost, pidStr⟩).1 = Response.Error msg 400) ∧
      (killHandler t ⟨MethodPost, pidStr⟩).2 = []) ∧
    (∀ pid e, Atoi pidStr = .ok pid → t.NewProcess (toInt32 pid) = some e →
      (∃ msg, (killHandler t ⟨MethodPost, pidStr⟩).1 = Response.Error msg 404) ∧
      (killHandler t ⟨MethodPost, pidStr⟩).2 = [Call.NewProcess (toInt32 pid)]) ∧
    (∀ pid e, Atoi pidStr = .ok pid → t.NewProcess (toInt32 pid) = none →
      t.Kill (toInt32 pid) = some e →
      ∃ msg, (killHandler t ⟨MethodPost, pidStr⟩).1 = Response.Error msg 500) ∧
    (∀ pid, Atoi pidStr = .ok pid → t.NewProcess (toInt32 pid) = none →
      t.Kill (toInt32 pid) = none →
      (killHandler t ⟨MethodPost, pidStr⟩).1 = Response.Redirect "/" 303) := by
  refine ⟨fun e h => ?_, fun pid e h1 h2 => ?_, fun pid e h1 h2 h3 => ?_, fun pid h1 h2 h3 => ?_⟩
  · simp [killHandler, h, StatusBadRequest]
  · simp [killHandler, h1, h2, StatusNotFound]
  · simp [killHandler, h1, h2, h3, StatusInternalServerError]
  · simp [killHandler, h1, h2, h3, StatusSeeOther]

/-- Witness of `killHandler_post`: the form values "abc" and "999999999" on an empty process
table, and "42" on a table that denies the kill and on one that permits it. -/
theorem killHandler_post_witness :
    ((∃ msg, (killHandler emptyTable ⟨MethodPost, "abc"⟩).1 = Response.Error msg 400) ∧
      (killHandler emptyTable ⟨MethodPost, "abc"⟩).2 = []) ∧
    ((∃ msg, (killHandler emptyTable ⟨MethodPost, "999999999"⟩).1 = Response.Error msg 404) ∧
      (killHandler emptyTable ⟨MethodPost, "999999999"⟩).2 =
        [Call.NewProcess (toInt32 999999999)]) ∧
    (∃ msg, (killHandler deniedTable ⟨MethodPost, "42"⟩).1 = Response.Error msg 500) ∧
    (killHandler permissiveTable ⟨MethodPost, "42"⟩).1 = Response.Redirect "/" 303 :=
  ⟨(killHandler_post emptyTable "abc").1 "invalid syntax" (by rfl),
    (killHandler_post emptyTable "999999999").2.1 999999999 "process does not exist" (by rfl)
      (by rfl),
    (killHandler_post deniedTable "42").2.2.1 42 "operation not permitted" (by rfl) (by rfl)
      (by rfl),
    (killHandler_post permissiveTable "42").2.2.2 42 (by rfl) (by rfl) (by rfl)⟩

/-- C9. For every successful enumeration and every pattern of read failures, `getProcesses`
returns a nil error and one row per enumerated process: the result is a permutation of the rows
built in enumeration order; every row carries the pid of its process, holds the zero value in a
field whose read failed and the value read in a field whose read succeeded. -/
theorem getProcesses_rows (procs : List Process) :
    (getProcesses (.ok procs)).2 = none ∧
    (getProcesses (.ok procs)).1.Perm (procs.map newProcessInfo) ∧
    (getProcesses (.ok procs)).1.length = procs.length ∧
    ∀ p : Process, (newProcessInfo p).PID = p.Pid ∧
      (p.Name = none → (newProcessInfo p).Name = "") ∧
      (∀ n, p.Name = some n → (newProcessInfo p).Name = n) ∧
      (p.CPUPercent = none → (newProcessInfo p).CPUPercent = 0) ∧
      (∀ c, p.CPUPercent = some c → (newProcessInfo p).CPUPercent = c) ∧
      (p.MemoryPercent = none → (newProcessInfo p).MemoryPercent = 0) ∧
      (∀ m, p.MemoryPercent = some m → (newProcessInfo p).MemoryPercent = m) := by
  have hperm := GoSort.Slice_perm cpuLess_strictWeakOrder (procs.map newProcessInfo)
  refine ⟨by rw [getProcesses_ok], by rw [getProcesses_ok]; exact hperm,
    by rw [getProcesses_ok, hperm.length_eq, List.length_map], fun p => ?_⟩
  refine ⟨rfl, fun h => ?_, fun n h => ?_, fun h => ?_, fun c h => ?_, fun h => ?_,
    fun m h => ?_⟩ <;> simp [newProcessInfo, h]

/-- Witness of `getProcesses_rows`: a process whose three reads are denied and one whose three
reads succeed. -/
theorem getProcesses_rows_witness :
    (newProcessInfo ⟨7, none, none, none⟩).Name = "" ∧
    (newProcessInfo ⟨7, none, none, none⟩).CPUPercent = 0 ∧
    (newProcessInfo ⟨7, none, none, none⟩).MemoryPercent = 0 ∧
    (newProcessInfo ⟨8, some "init", some 3, some 1⟩).Name = "init" ∧
    (newProcessInfo ⟨8, some "init", some 3, some 1⟩).CPUPercent = 3 ∧
    (newProcessInfo ⟨8, some "init", some 3, some 1⟩).MemoryPercent = 1 :=
  ⟨((getProcesses_rows []).2.2.2 ⟨7, none, none, none⟩).2.1 rfl,
    ((getProcesses_rows []).2.2.2 ⟨7, none, none, none⟩).2.2.2.1 rfl,
    ((getProcesses_rows []).2.2.2 ⟨7, none, none, none⟩).2.2.2.2.2.1 rfl,
    ((getProcesses_rows []).2.2.2 ⟨8, some "init", some 3, some 1⟩).2.2.1 "init" rfl,
    ((getProcesses_rows []).2.2.2 ⟨8, some "init", some 3, some 1⟩).2.2.2.2.1 3 rfl,
    ((getProcesses_rows []).2.2.2 ⟨8, some "init", some 3, some 1⟩).2.2.2.2.2.2 1 rfl⟩

/-- C10, at the failing input. The form value "4294967297" is accepted as the integer
4294967297, and the process looked up and killed is pid 1. -/
theorem killHandler_wraps_pid :
    Atoi "4294967297" = .ok 4294967297 ∧
    killHandler permissiveTable ⟨MethodPost, "4294967297"⟩ =
      (Response.Redirect "/" 303, [Call.NewProcess 1, Call.Kill 1]) :=
  ⟨by rfl, by rfl⟩

end Main
